import Mathlib

/-!
Verification development for the schemasniff pattern-mining / scoring /
field-inference engine (`src/analyzer.ts`).

The TypeScript source is shallowly embedded below.  JavaScript strings are
modelled by `String`, JavaScript numbers by `ℚ` where every value reached is
rational (diversity, confidences) and by `ℝ` where `Math.log` is involved
(pattern scores).  The DOM snapshot is modelled by an explicit tree type;
`page.evaluate` blocks are embedded as pure functions of that tree.  The
utility-class logic (`getSemanticClasses`, `getSemanticClassSelector` from
`src/utils/utility-classes.ts`) is shipped into the page as an injected
string by the source; the mining and extraction functions therefore take the
classifier as an explicit function parameter, and the injected classifier
itself is embedded below as `getSemanticClasses` / `getSemanticClassSelector`
for instantiating them.
-/

namespace SchemaSniff

/-! ### Configuration constants (`CONFIG` in `src/utils/constants.ts`) -/

/-- `CONFIG.IDEAL_DOM_DEPTH` from `utils/constants.ts`. -/
def IDEAL_DOM_DEPTH : Nat := 4

/-- `CONFIG.SAMPLE_COUNT` from `utils/constants.ts`. -/
def SAMPLE_COUNT : Nat := 5

/-- `CONFIG.MAX_FIELD_NAME_LENGTH` from `utils/constants.ts`. -/
def MAX_FIELD_NAME_LENGTH : Nat := 30

/-- `CONFIG.MAX_HTML_PREVIEW` from `utils/constants.ts`. -/
def MAX_HTML_PREVIEW : Nat := 200

/-- `CONFIG.MAX_TEXT_PREVIEW` from `utils/constants.ts`. -/
def MAX_TEXT_PREVIEW : Nat := 100

/-- `CONFIG.CONTAINER_TAGS` from `utils/constants.ts`. -/
def CONTAINER_TAGS : List String := ["article", "div", "li", "tr", "section", "a"]

/-! ### Types (`src/analyzer.ts` lines 10-105) -/

/-- `FieldType` from `analyzer.ts`. -/
inductive FieldType where
  | text
  | href
  | url
  | number
  | date
  | price
deriving DecidableEq, Repr

/-- `Field` from `analyzer.ts`.  `confidence` is a JS number that is always
rational (a rounded ratio of counts), so it is modelled by `ℚ`. -/
structure Field where
  name : String
  selector : String
  type : FieldType
  confidence : ℚ
  sample : Option String := none
deriving DecidableEq, Repr

/-- `Schema` from `analyzer.ts`. -/
structure Schema where
  url : String
  timestamp : String
  containerSelector : String
  fields : List Field
  itemCount : Nat
  confidence : ℚ
deriving DecidableEq, Repr

/-- `PatternSample` from `analyzer.ts`. -/
structure PatternSample where
  html : String
  text : Option String
  childCount : Nat
  textLength : Nat
deriving DecidableEq, Repr

/-- `DOMPattern` from `analyzer.ts`. -/
structure DOMPattern where
  selector : String
  count : Nat
  depth : Nat
  samples : List PatternSample
deriving DecidableEq, Repr

/-- `PatternScoreBreakdown` from `analyzer.ts`; the component scores are JS
floats involving `Math.log`, modelled by `ℝ`. -/
structure PatternScoreBreakdown where
  countScore : ℝ
  depthScore : ℝ
  diversityScore : ℝ
  childScore : ℝ
  tableBonusScore : ℝ
  anchorPenalty : ℝ
  totalScore : ℝ

/-- `ScoredPattern` from `analyzer.ts`.  The `diversityScore` is always a
ratio of counts, hence `ℚ`; the total `score` involves `Math.log`, hence
`ℝ`. -/
structure ScoredPattern where
  pattern : DOMPattern
  score : ℝ
  diversityScore : ℚ
  breakdown : Option PatternScoreBreakdown

/-- `AnalyzerOptions` from `analyzer.ts`, restricted to the options the
embedded engine core consumes (navigation-only options such as `timeout`,
`userAgent`, `viewport`, `cookies`, `enableJs`, `waitForSelector` influence
the Document Provider, not the engine, and are omitted). -/
structure AnalyzerOptions where
  minItems : Nat
  maxDepth : Nat
  fieldTypes : List FieldType
  includeEmpty : Bool
  confidenceThreshold : ℚ
  containerSelector : Option String := none
  excludeSelectors : List String := []
  minChildren : Option Nat := none
  minTextLength : Option Nat := none
  preferTable : Bool := false
  ignoreNav : Bool := false
  debug : Bool := false
  listPatterns : Option Nat := none

/-- `NAV_SELECTORS` from `analyzer.ts` lines 101-105. -/
def NAV_SELECTORS : List String :=
  ["nav", "header", "footer", ".nav", ".navbar", ".navigation",
   ".menu", ".sidebar", ".footer", ".header", "[role=\"navigation\"]",
   "[role=\"banner\"]", "[role=\"contentinfo\"]"]

/-! ### JS string primitives used by the engine -/

/-- JS `Math.round`: round half away from zero towards `+∞` for the
non-negative values reached here; on `ℚ` this is `⌊q + 1/2⌋`. -/
def jsRound (q : ℚ) : ℤ := ⌊q + 1/2⌋

/-- JS `Math.round(q * 100) / 100`, the two-decimal rounding used for
confidences. -/
def round2 (q : ℚ) : ℚ := (jsRound (q * 100) : ℚ) / 100

/-- Whitespace trim on a character list (JS `.trim()`). -/
def trimChars (l : List Char) : List Char :=
  ((l.dropWhile Char.isWhitespace).reverse.dropWhile Char.isWhitespace).reverse

/-- JS `.trim()` on a string. -/
def jsTrim (s : String) : String := String.mk (trimChars s.data)

/-- JS `.substring(0, n)` on a string. -/
def jsTake (n : Nat) (s : String) : String := String.mk (s.data.take n)

/-- JS `.startsWith(pre)` on a string. -/
def jsStartsWith (pre s : String) : Bool := pre.data.isPrefixOf s.data

/-- Split a character list at every occurrence of `sep`, keeping empty
segments (JS `.split(sep)` for a one-character separator). -/
def splitOnChar (sep : Char) : List Char → List (List Char)
  | [] => [[]]
  | c :: cs =>
    let r := splitOnChar sep cs
    if c = sep then [] :: r
    else
      match r with
      | h :: t => (c :: h) :: t
      | [] => [[c]]

/-- The maximal runs of characters not satisfying `p`, in order (whitespace
tokenization of a DOM `class` attribute). -/
def wordsByAux (p : Char → Bool) (cur : List Char) : List Char → List (List Char)
  | [] => if cur.isEmpty then [] else [cur.reverse]
  | c :: cs =>
    if p c then
      if cur.isEmpty then wordsByAux p [] cs
      else cur.reverse :: wordsByAux p [] cs
    else wordsByAux p (c :: cur) cs

/-- JS `Array.prototype.join(sep)` for a one-character separator. -/
def intercalateChar (sep : Char) : List String → String
  | [] => ""
  | [s] => s
  | s :: rest => s ++ String.mk [sep] ++ intercalateChar sep rest

/-- One step of JS `.replace(/\s+/g, ' ')`: collapse every maximal run of
whitespace characters to a single space.  A `' '` in the output can only stem
from whitespace in the input, so collapsing the already-collapsed tail is
sound. -/
def collapseWs : List Char → List Char
  | [] => []
  | c :: cs =>
    let rest := collapseWs cs
    if c.isWhitespace then
      match rest with
      | ' ' :: _ => rest
      | _ => ' ' :: rest
    else c :: rest

/-- The sample-text normalization of `calculateDiversity` (`analyzer.ts`
lines 539-545): collapse whitespace, trim, truncate to 50 chars,
lowercase. -/
def normalizeText (s : String) : String :=
  String.mk (((trimChars (collapseWs s.data)).take 50).map Char.toLower)

/-- `calculateDiversity` from `analyzer.ts` lines 531-554. -/
def calculateDiversity (samples : List PatternSample) : ℚ :=
  if samples.length = 0 then 0
  else if samples.length = 1 then 1
  else
    let texts := (samples.map (fun s => normalizeText (s.text.getD ""))).filter
      (fun t => t.length > 0)
    if texts.length = 0 then 1/2
    else (texts.dedup.length : ℚ) / (texts.length : ℚ)

/-- Lowercase-alphanumeric test for the sanitizer regex `[^a-z0-9]`. -/
def isAlnumLower (c : Char) : Bool :=
  (('a' ≤ c) && (c ≤ 'z')) || (('0' ≤ c) && (c ≤ '9'))

/-- One step of JS `.replace(/[^a-z0-9]+/g, '_')`: collapse every maximal run
of non-alphanumeric characters to a single underscore.  An `'_'` in the
output can only stem from a non-alphanumeric run, so collapsing against the
already-collapsed tail is sound. -/
def collapseNonAlnum : List Char → List Char
  | [] => []
  | c :: cs =>
    let rest := collapseNonAlnum cs
    if isAlnumLower c then c :: rest
    else
      match rest with
      | '_' :: _ => rest
      | _ => '_' :: rest

/-- JS `.replace(/^_+|_+$/g, '')`: trim leading and trailing underscores. -/
def trimUnderscores (l : List Char) : List Char :=
  ((l.dropWhile (fun c => c = '_')).reverse.dropWhile (fun c => c = '_')).reverse

/-- `sanitizeName` from `analyzer.ts` lines 632-638: lowercase, truncate to
`MAX_FIELD_NAME_LENGTH`, collapse non-alphanumeric runs to `_`, trim
underscores. -/
def sanitizeName (text : String) : String :=
  String.mk (trimUnderscores (collapseNonAlnum ((text.data.map Char.toLower).take MAX_FIELD_NAME_LENGTH)))

/-! ### Field deduplication (`analyzer.ts` lines 752-764) -/

/-- The `seen` counter map of `deduplicateFields`: a JS `Map<string,number>`
modelled as an association list where the most recent binding is consed in
front (so `List.lookup` finds it first, as `Map.get` would). -/
def seenCount (seen : List (String × Nat)) (k : String) : Nat :=
  (seen.lookup k).getD 0

/-- The traversal of `deduplicateFields`: `fields.map` with the stateful
`seen` map threaded through. -/
def deduplicateFieldsGo (seen : List (String × Nat)) : List Field → List Field
  | [] => []
  | f :: rest =>
    let count := seenCount seen f.name
    let seen2 := (f.name, count + 1) :: seen
    (if count > 0 then { f with name := f.name ++ "_" ++ Nat.repr count } else f)
      :: deduplicateFieldsGo seen2 rest

/-- `deduplicateFields` from `analyzer.ts` lines 752-764. -/
def deduplicateFields (fields : List Field) : List Field :=
  deduplicateFieldsGo [] fields

/-! ### Document model

The engine consumes an already-loaded document tree (spec §3 "Document
Handle").  A node is either a text node or an element with a tag, an
attribute list and children. -/

/-- A DOM node: text node or element. -/
inductive DomNode where
  | text (s : String) : DomNode
  | elem (tag : String) (attrs : List (String × String)) (children : List DomNode) : DomNode

/-- Element test (`nodeType === ELEMENT_NODE`). -/
def DomNode.isElem : DomNode → Bool
  | .text _ => false
  | .elem _ _ _ => true

/-- The tag name of an element (DOM tag names are taken to be already
lowercase, as `tagName.toLowerCase()` produces). -/
def DomNode.tagOf : DomNode → String
  | .text _ => ""
  | .elem t _ _ => t

/-- Attribute lookup (`el.getAttribute` / `el.hasAttribute`). -/
def DomNode.getAttr : DomNode → String → Option String
  | .text _, _ => none
  | .elem _ attrs _, name => attrs.lookup name

/-- The class token list of an element (`el.classList`): the `class`
attribute split on whitespace. -/
def DomNode.classList (n : DomNode) : List String :=
  (wordsByAux Char.isWhitespace [] ((n.getAttr "class").getD "").data).map String.mk

/-- Number of element children (`el.children.length`). -/
def DomNode.childCount : DomNode → Nat
  | .text _ => 0
  | .elem _ _ cs => (cs.filter DomNode.isElem).length

/-- Children of a node (empty for text nodes). -/
def DomNode.childrenOf : DomNode → List DomNode
  | .text _ => []
  | .elem _ _ cs => cs

mutual

/-- The concatenated text of all descendant text nodes
(`el.textContent`). -/
def textContent : DomNode → String
  | .text s => s
  | .elem _ _ cs => textContentList cs

/-- `textContent` over a child list, in document order. -/
def textContentList : List DomNode → String
  | [] => ""
  | n :: ns => textContent n ++ textContentList ns

end

/-- Serialization of an attribute list for `outerHTML` previews. -/
def renderAttrs : List (String × String) → String
  | [] => ""
  | (k, v) :: rest => " " ++ k ++ "=\"" ++ v ++ "\"" ++ renderAttrs rest

mutual

/-- A plain serialization of a node (`el.outerHTML`); only used for the
bounded `html` previews inside samples, which no downstream computation
reads. -/
def renderNode : DomNode → String
  | .text s => s
  | .elem t attrs cs =>
      "<" ++ t ++ renderAttrs attrs ++ ">" ++ renderNodeList cs ++ "</" ++ t ++ ">"

/-- `renderNode` over a child list. -/
def renderNodeList : List DomNode → String
  | [] => ""
  | n :: ns => renderNode n ++ renderNodeList ns

end

/-! ### CSS selector subset

The source hands selector strings to `document.querySelectorAll`.  The
selectors the engine itself builds are always of the form
`tag.class1.class2`; exclusion lists additionally use bare tags, bare
`.class` selectors and `[role="..."]` attribute selectors.  The matcher
below models exactly this subset of CSS. -/

/-- A parsed simple selector of the modelled subset. -/
inductive SimpleSel where
  | tagClasses (tag : String) (classes : List String)
  | attrEq (name : String) (value : String)

/-- Parse a selector string of the modelled subset. -/
def parseSelector (s : String) : SimpleSel :=
  if jsStartsWith "[" s then
    let body := (s.data.drop 1).dropLast
    match splitOnChar '=' body with
    | [n, v] => .attrEq (String.mk n) (String.mk (v.drop 1).dropLast)
    | _ => .attrEq (String.mk body) ""
  else
    match splitOnChar '.' s.data with
    | [] => .tagClasses "" []
    | t :: cls => .tagClasses (String.mk t) ((cls.map String.mk).filter (fun c => c ≠ ""))

/-- Does an element match a simple selector?  Text nodes never match. -/
def matchesSel (sel : SimpleSel) (n : DomNode) : Bool :=
  n.isElem &&
    (match sel with
     | .tagClasses tag cls =>
         (tag = "" || n.tagOf = tag) && cls.all (fun c => n.classList.contains c)
     | .attrEq name value => n.getAttr name = some value)

/-- A pre-order traversal entry: DOM depth (`getDepth`, hops to the root),
the exclusion mark of `findRepeatedPatterns` (the element or one of its
ancestors matches an exclusion selector), and the node itself. -/
structure PElem where
  depth : Nat
  excluded : Bool
  node : DomNode

mutual

/-- Pre-order traversal of all elements, carrying depth and the
"excluded element or descendant of one" mark of `findRepeatedPatterns`
lines 314-329. -/
def preorderEx (exSels : List SimpleSel) (inEx : Bool) (d : Nat) : DomNode → List PElem
  | .text _ => []
  | .elem t attrs cs =>
      let ex := inEx || exSels.any (fun s => matchesSel s (.elem t attrs cs))
      ⟨d, ex, .elem t attrs cs⟩ :: preorderExList exSels ex (d + 1) cs

/-- `preorderEx` over a child list, in document order. -/
def preorderExList (exSels : List SimpleSel) (inEx : Bool) (d : Nat) : List DomNode → List PElem
  | [] => []
  | n :: ns => preorderEx exSels inEx d n ++ preorderExList exSels inEx d ns

end

/-- `document.querySelectorAll(selector)` over the modelled selector subset:
all matching elements in document order, with their depths. -/
def querySelectorAll (doc : DomNode) (selector : String) : List PElem :=
  (preorderEx [] false 0 doc).filter (fun pe => matchesSel (parseSelector selector) pe.node)

/-- Build one `PatternSample` from an element (`analyzer.ts` lines 266-271
and 388-393). -/
def mkSample (n : DomNode) : PatternSample :=
  { html := jsTake MAX_HTML_PREVIEW (renderNode n)
    text := some (jsTake MAX_TEXT_PREVIEW (textContent n))
    childCount := n.childCount
    textLength := (jsTrim (textContent n)).length }

/-- `getManualPattern` from `analyzer.ts` lines 250-288. -/
def getManualPattern (doc : DomNode) (selector : String) : Option DOMPattern :=
  let elements := querySelectorAll doc selector
  match elements with
  | [] => none
  | first :: _ =>
      some { selector := selector
             count := elements.length
             depth := first.depth
             samples := (elements.take 5).map (fun pe => mkSample pe.node) }

/-! ### Semantic class classifier (`src/utils/utility-classes.ts`)

The embedding below follows the injectable variant (the string built by
`getInjectableUtilityLogic`, lines 107-134), which is the code that actually
runs inside `page.evaluate`; it agrees with the module-level
`isUtilityClass`/`getSemanticClasses` on elements.  Each regex heuristic is
embedded as an equivalent decidable matcher. -/

/-- `UTILITY_CLASSES` from `utils/utility-classes.ts`. -/
def UTILITY_CLASSES : List String := [
  "flex", "grid", "block", "inline", "inline-block", "inline-flex", "inline-grid",
  "hidden", "visible", "invisible", "contents", "flow-root",
  "relative", "absolute", "fixed", "sticky", "static",
  "items-center", "items-start", "items-end", "items-stretch", "items-baseline",
  "justify-center", "justify-start", "justify-end", "justify-between", "justify-around",
  "flex-row", "flex-col", "flex-wrap", "flex-nowrap", "flex-1", "grow", "shrink",
  "p-0", "p-1", "p-2", "p-3", "p-4", "p-5", "p-6", "p-8", "p-10", "p-12",
  "m-0", "m-1", "m-2", "m-3", "m-4", "m-5", "m-6", "m-8", "m-10", "m-12",
  "px-0", "px-1", "px-2", "px-3", "px-4", "px-5", "px-6", "px-8",
  "py-0", "py-1", "py-2", "py-3", "py-4", "py-5", "py-6", "py-8",
  "mx-auto", "my-auto", "mt-0", "mt-1", "mt-2", "mt-4", "mb-0", "mb-1", "mb-2", "mb-4",
  "gap-0", "gap-1", "gap-2", "gap-3", "gap-4", "gap-5", "gap-6", "gap-8",
  "w-full", "w-auto", "w-screen", "h-full", "h-auto", "h-screen",
  "min-w-0", "min-h-0", "max-w-full", "max-h-full",
  "text-left", "text-center", "text-right", "text-justify",
  "text-xs", "text-sm", "text-base", "text-lg", "text-xl", "text-2xl", "text-3xl",
  "font-normal", "font-medium", "font-semibold", "font-bold",
  "truncate", "overflow-hidden", "overflow-auto", "overflow-scroll",
  "bg-white", "bg-black", "bg-transparent", "text-white", "text-black",
  "border", "border-0", "border-2", "rounded", "rounded-md", "rounded-lg", "rounded-full",
  "shadow", "shadow-sm", "shadow-md", "shadow-lg", "opacity-0", "opacity-50", "opacity-100",
  "transition", "transition-all", "duration-150", "duration-200", "duration-300",
  "container", "row", "col", "d-flex", "d-block", "d-none", "d-inline",
  "align-items-center", "justify-content-center",
  "clearfix", "wrapper", "inner", "outer", "content", "main"]

/-- The CSS-unsafe-character test (regex character class `:` `[` `]` `*`
`@` `#` `>` `~` `+`, unanchored). -/
def hasCssUnsafeChar (cls : String) : Bool :=
  cls.data.any (fun c => c = ':' || c = '[' || c = ']' || c = '*'
    || c = '@' || c = '#' || c = '>' || c = '~' || c = '+')

/-- The responsive/state-prefix test: one of the listed alternatives
followed by a colon, anchored at the start. -/
def hasStatePrefix (cls : String) : Bool :=
  ["sm:", "md:", "lg:", "xl:", "2xl:", "hover:", "focus:", "active:",
   "disabled:", "dark:", "light:"].any (fun p => jsStartsWith p cls)

/-- The tail of the spacing regex after the optional axis letter: a dash
followed by at least one character (the optional brackets of the arbitrary
value are subsumed by the any-character quantifier). -/
def spacingAfterMP (l : List Char) : Bool :=
  (match l with
   | '-' :: rest => !rest.isEmpty
   | _ => false) ||
  (match l with
   | a :: '-' :: rest =>
       (a = 't' || a = 'r' || a = 'b' || a = 'l' || a = 'x' || a = 'y')
         && !rest.isEmpty
   | _ => false)

/-- The spacing-utility test: optional leading dash, `m` or `p`, optional
axis letter, a dash, then a non-empty value. -/
def isSpacingUtility (cls : String) : Bool :=
  (match cls.data with
   | c :: rest => (c = 'm' || c = 'p') && spacingAfterMP rest
   | [] => false) ||
  (match cls.data with
   | '-' :: c :: rest => (c = 'm' || c = 'p') && spacingAfterMP rest
   | _ => false)

/-- The sizing-utility test: one of the size prefixes, a dash, then a
non-empty value. -/
def isSizingUtility (cls : String) : Bool :=
  ["w-", "h-", "min-w-", "min-h-", "max-w-", "max-h-"].any (fun p =>
    jsStartsWith p cls && cls.length > p.length)

/-- The colour palettes of the colour-utility regex. -/
def colorPalettes : List String :=
  ["gray", "slate", "zinc", "neutral", "red", "blue", "green", "yellow",
   "purple", "pink", "orange", "indigo", "teal", "cyan"]

/-- The colour-utility test: kind, dash, palette, dash, then at least one
digit (the regex is not anchored at the end). -/
def isColorUtility (cls : String) : Bool :=
  ["text", "bg", "border", "ring"].any (fun a =>
    colorPalettes.any (fun b =>
      jsStartsWith (a ++ "-" ++ b ++ "-") cls &&
        (match cls.data.drop (a.length + b.length + 2) with
         | c :: _ => c.isDigit
         | [] => false)))

/-- A non-empty all-digit tail, for the end-anchored `\d+$` patterns. -/
def digitsOnly (l : List Char) : Bool := !l.isEmpty && l.all Char.isDigit

/-- The grid-utility test: `grid-cols-N`, `grid-rows-N`, `col-span-N` or
`row-span-N` with `N` a non-empty digit string (end-anchored). -/
def isGridUtility (cls : String) : Bool :=
  ["grid-cols-", "grid-rows-", "col-span-", "row-span-"].any (fun p =>
    jsStartsWith p cls && digitsOnly (cls.data.drop p.length))

/-- The end-anchored text-size enumeration. -/
def isTextSizeUtility (cls : String) : Bool :=
  ["text-xs", "text-sm", "text-base", "text-lg", "text-xl", "text-2xl",
   "text-3xl", "text-4xl", "text-5xl"].contains cls

/-- The end-anchored font-weight enumeration. -/
def isFontWeightUtility (cls : String) : Bool :=
  ["font-thin", "font-extralight", "font-light", "font-normal", "font-medium",
   "font-semibold", "font-bold", "font-extrabold", "font-black"].contains cls

/-- `isUtilityClass` from `utils/utility-classes.ts`: set membership or any
of the structural heuristics. -/
def isUtilityClass (cls : String) : Bool :=
  UTILITY_CLASSES.contains cls
  || hasCssUnsafeChar cls
  || hasStatePrefix cls
  || isSpacingUtility cls
  || isSizingUtility cls
  || isColorUtility cls
  || isGridUtility cls
  || isTextSizeUtility cls
  || isFontWeightUtility cls

/-- The injected `getSemanticClasses` (`utils/utility-classes.ts` lines
124-128): the element's trimmed `className` split on whitespace runs with
utility classes filtered out.  Note there is NO deduplication: repeated
class tokens (for example `class="card card"`) yield repeated entries. -/
def getSemanticClasses (el : DomNode) : List String :=
  let className := jsTrim ((el.getAttr "class").getD "")
  if className = "" then []
  else ((wordsByAux Char.isWhitespace [] className.data).map String.mk).filter
    (fun cls => !isUtilityClass cls)

/-- The injected `getSemanticClassSelector` (`utils/utility-classes.ts`
lines 130-133): a dot plus the first semantic class, or the empty string. -/
def getSemanticClassSelector (el : DomNode) : String :=
  match getSemanticClasses el with
  | [] => ""
  | c :: _ => "." ++ c

/-! ### Pattern mining (`analyzer.ts` lines 294-420)

The utility-class logic (`getSemanticClasses` from
`src/utils/utility-classes.ts`) is shipped into the page as a string and
`eval`-ed by the source.  The embedding keeps it as an explicit function
parameter `getSem`, mirroring the injection; the injected classifier itself
is embedded above and instantiates the parameter in the real program. -/

/-- A clustering group of `findRepeatedPatterns`: running shared-class
signature plus members in join order. -/
structure MGroup where
  classes : List String
  elems : List PElem

/-- `classIntersection` from `analyzer.ts` lines 331-334: the members of
`classes1` that also occur in `classes2`, in `classes1` order. -/
def classIntersection (classes1 classes2 : List String) : List String :=
  classes1.filter (fun cls => classes2.contains cls)

/-- The loop body chain of the `for (const group of groups)` best-group
search (`findRepeatedPatterns` lines 365-374), with `idx` the index of the
head of the remaining group list and `best` the accumulator
`(bestGroup, bestIntersection)`. -/
def bestGroupSearchAux (semClasses : List String) (idx : Nat)
    (best : Option Nat × List String) : List MGroup → Option Nat × List String
  | [] => best
  | g :: gs =>
    let inter := classIntersection semClasses g.classes
    if inter.length ≥ 1 && inter.length > best.2.length then
      bestGroupSearchAux semClasses (idx + 1) (some idx, inter) gs
    else
      bestGroupSearchAux semClasses (idx + 1) best gs

/-- The `for (const group of groups)` best-group search of
`findRepeatedPatterns` lines 365-374: index of the group with the largest
intersection of size ≥ 1 (first wins ties, by strict improvement), together
with that intersection. -/
def bestGroupSearch (semClasses : List String) (groups : List MGroup) :
    Option Nat × List String :=
  bestGroupSearchAux semClasses 0 (none, []) groups

/-- Replace group `i`'s signature by `inter` and append `el` to its member
list (`bestGroup.classes = bestIntersection; bestGroup.elements.push(el)`). -/
def updateGroup : List MGroup → Nat → List String → PElem → List MGroup
  | [], _, _, _ => []
  | g :: gs, 0, inter, el => { classes := inter, elems := g.elems ++ [el] } :: gs
  | g :: gs, n + 1, inter, el => g :: updateGroup gs n inter el

/-- Admission filters applied to one element before clustering
(`findRepeatedPatterns` lines 353-359): `minChildren` and
`minTextLength`. -/
def passesSizeFilters (options : AnalyzerOptions) (el : PElem) : Bool :=
  (match options.minChildren with
   | some mc => el.node.childCount ≥ mc
   | none => true) &&
  (match options.minTextLength with
   | some mt => (jsTrim (textContent el.node)).length ≥ mt
   | none => true)

/-- One `elements.forEach` step of the clustering loop
(`findRepeatedPatterns` lines 352-382). -/
def mineStep (getSem : DomNode → List String) (options : AnalyzerOptions)
    (groups : List MGroup) (el : PElem) : List MGroup :=
  if !passesSizeFilters options el then groups
  else
    let semClasses := getSem el.node
    if semClasses.length = 0 then groups
    else
      match bestGroupSearch semClasses groups with
      | (some i, inter) => updateGroup groups i inter el
      | (none, _) => groups ++ [{ classes := semClasses, elems := [el] }]

/-- The whole clustering loop over the tag's elements in document order. -/
def mineFold (getSem : DomNode → List String) (options : AnalyzerOptions)
    (groups : List MGroup) (els : List PElem) : List MGroup :=
  els.foldl (mineStep getSem options) groups

/-- Emission of one group as a `DOMPattern` if it qualifies
(`findRepeatedPatterns` lines 384-402). -/
def emitGroup (tag : String) (options : AnalyzerOptions) (g : MGroup) :
    Option DOMPattern :=
  if g.elems.length ≥ options.minItems ∧ g.classes.length ≥ 1 then
    some { selector := tag ++ "." ++ intercalateChar '.' g.classes
           count := g.elems.length
           depth := ((g.elems.head?).map PElem.depth).getD 0
           samples := (g.elems.take 10).map (fun pe => mkSample pe.node) }
  else none

/-- The `containerTags.forEach` body of `findRepeatedPatterns`
(lines 346-403): collect the tag's non-excluded elements, require at least
`minItems` of them, cluster, and emit qualifying groups. -/
def minePatternsForTag (getSem : DomNode → List String)
    (options : AnalyzerOptions) (allElems : List PElem) (tag : String) :
    List DOMPattern :=
  let elements := allElems.filter (fun pe => pe.node.tagOf = tag && !pe.excluded)
  if elements.length < options.minItems then []
  else (mineFold getSem options [] elements).filterMap (emitGroup tag options)

/-- `findRepeatedPatterns` from `analyzer.ts` lines 294-420, for a given
injected `getSem` classifier. -/
def findRepeatedPatterns (getSem : DomNode → List String) (doc : DomNode)
    (options : AnalyzerOptions) : List DOMPattern :=
  let exStrs := options.excludeSelectors ++
    (if options.ignoreNav then NAV_SELECTORS else [])
  let exSels := exStrs.map parseSelector
  let allElems := preorderEx exSels false 0 doc
  CONTAINER_TAGS.flatMap (minePatternsForTag getSem options allElems)

/-! ### Pattern scoring and selection (`analyzer.ts` lines 426-525)

Scores are JS floats built from `Math.log`; they are modelled by `ℝ`
(exact real arithmetic in place of IEEE rounding). -/

/-- Score one pattern that survived the `maxDepth` filter
(`scorePatterns` lines 433-502), including the diversity gate. -/
noncomputable def scoreOne (options : AnalyzerOptions) (p : DOMPattern) :
    ScoredPattern :=
  let diversityScore := calculateDiversity p.samples
  if diversityScore < 1/5 then
    { pattern := p
      score := -100
      diversityScore := diversityScore
      breakdown := if options.debug then
        some { countScore := 0, depthScore := 0, diversityScore := 0,
               childScore := 0, tableBonusScore := 0, anchorPenalty := 0,
               totalScore := -100 }
        else none }
  else
    let countScore : ℝ := Real.log p.count * 10
    let depthScore : ℝ := max 0 (10 - |(p.depth : ℝ) - (IDEAL_DOM_DEPTH : ℝ)| * 2)
    let diversityBonusScore : ℝ := (diversityScore : ℝ) * 15
    let avgChildCount : ℚ :=
      ((p.samples.map (fun s => (s.childCount : ℚ))).sum) / (p.samples.length : ℚ)
    let childScore : ℝ := min ((avgChildCount : ℝ) / 3) 1 * 20
    let tableBonusScore : ℝ :=
      if options.preferTable then
        if jsStartsWith "tr." p.selector || jsStartsWith "tr " p.selector then 25
        else if (decide (List.IsInfix "table".data p.selector.data)
                 || decide (List.IsInfix "tbody".data p.selector.data)) then 15
        else 0
      else 0
    let anchorPenalty : ℝ := if jsStartsWith "a." p.selector then -15 else 0
    let totalScore := countScore + depthScore + diversityBonusScore + childScore
      + tableBonusScore + anchorPenalty
    { pattern := p
      score := totalScore
      diversityScore := diversityScore
      breakdown := if options.debug then
        some { countScore := countScore, depthScore := depthScore,
               diversityScore := diversityBonusScore, childScore := childScore,
               tableBonusScore := tableBonusScore, anchorPenalty := anchorPenalty,
               totalScore := totalScore }
        else none }

/-- The comparator `(a, b) => b.score - a.score` of `scorePatterns` line 504,
as the "may come first" relation of a stable sort: `a` may precede `b` iff
`b.score ≤ a.score`. -/
noncomputable def scoredLe (a b : ScoredPattern) : Bool :=
  decide (b.score ≤ a.score)

/-- `scorePatterns` from `analyzer.ts` lines 426-507. -/
noncomputable def scorePatterns (patterns : List DOMPattern)
    (options : AnalyzerOptions) : List ScoredPattern :=
  if patterns.length = 0 then []
  else
    let filtered := patterns.filter (fun p => p.depth ≤ options.maxDepth)
    if filtered.length = 0 then []
    else (filtered.map (scoreOne options)).mergeSort scoredLe

/-- `selectBestPattern` from `analyzer.ts` lines 509-525 (the `debug`
branch only prints). -/
noncomputable def selectBestPattern (patterns : List DOMPattern)
    (options : AnalyzerOptions) : Option DOMPattern :=
  match scorePatterns patterns options with
  | [] => none
  | sp :: _ => some sp.pattern

/-! ### Field type classification (`inferType`, `analyzer.ts` lines 616-630)

The regexes are embedded as explicit decidable matchers with the same
match semantics (every backtracking choice is enumerated or shown
equivalent to the greedy scan). -/

/-- Currency symbol class `[$£€¥]`. -/
def isCurrency (c : Char) : Bool :=
  c = '$' || c = '£' || c = '€' || c = '¥'

/-- Full match of `[\d,]+\.?\d*` against `l`: a nonempty digit/comma run,
then optionally a dot followed by digits only. -/
def matchDigitsCommaDotTail (l : List Char) : Bool :=
  let pre := l.takeWhile (fun c => c.isDigit || c = ',')
  let rest := l.drop pre.length
  pre.length ≥ 1 &&
    (match rest with
     | [] => true
     | '.' :: ds => ds.all Char.isDigit
     | _ => false)

/-- Match of `^[$£€¥]\s*[\d,]+\.?\d*$`. -/
def priceSymFirst (l : List Char) : Bool :=
  match l with
  | [] => false
  | c :: rest =>
      isCurrency c && matchDigitsCommaDotTail (rest.dropWhile Char.isWhitespace)

/-- Consume `\d+\.?\d*` greedily, returning the remainder on success. -/
def matchNumBody (l : List Char) : Option (List Char) :=
  let d1 := l.takeWhile Char.isDigit
  if d1.length = 0 then none
  else
    let r1 := l.drop d1.length
    match r1 with
    | '.' :: r2 => some (r2.drop (r2.takeWhile Char.isDigit).length)
    | _ => some r1

/-- Match of `^\d+\.?\d*\s*[$£€¥]$`. -/
def priceSymLast (l : List Char) : Bool :=
  match matchNumBody l with
  | none => false
  | some rest =>
      match rest.dropWhile Char.isWhitespace with
      | [c] => isCurrency c
      | _ => false

/-- Match of `^\d+\.?\d*$`. -/
def numberFull (l : List Char) : Bool :=
  matchNumBody l = some []

/-- Separator class (dash or slash) of the date regex. -/
def isDateSep (c : Char) : Bool := c = '-' || c = '/'

/-- Try consuming between `kmin` and `kmax` digits and continue; enumerates
every quantifier choice of `\d{kmin,kmax}`. -/
def digitsThen (l : List Char) (kmin kmax : Nat) (cont : List Char → Bool) : Bool :=
  (List.range' kmin (kmax - kmin + 1)).any (fun k =>
    (l.take k).length = k && (l.take k).all Char.isDigit && cont (l.drop k))

/-- Does a match of the numeric date pattern (1-4 digits, separator,
1-2 digits, separator, 1-4 digits) start at the head of `l`? -/
def dateAt (l : List Char) : Bool :=
  digitsThen l 1 4 (fun r1 =>
    match r1 with
    | c :: r2 =>
        isDateSep c && digitsThen r2 1 2 (fun r3 =>
          match r3 with
          | c2 :: r4 => isDateSep c2 && digitsThen r4 1 4 (fun _ => true)
          | [] => false)
    | [] => false)

/-- Unanchored search for the numeric date pattern (`regex.test`). -/
def containsDateAt : List Char → Bool
  | [] => false
  | c :: cs => dateAt (c :: cs) || containsDateAt cs

/-- JS word character class `\w` = `[A-Za-z0-9_]`, for the `\b` boundary. -/
def isWordChar (c : Char) : Bool :=
  (('a' ≤ c) && (c ≤ 'z')) || (('A' ≤ c) && (c ≤ 'Z')) || c.isDigit || c = '_'

/-- Case-insensitive month-name prefix at the head of `l`. -/
def monthAt (l : List Char) : Bool :=
  ["jan", "feb", "mar", "apr", "may", "jun",
   "jul", "aug", "sep", "oct", "nov", "dec"].any
    (fun m => (l.take 3).map Char.toLower = m.data)

/-- Unanchored search for `\b(jan|...|dec)` with `prev` recording whether
the previous character was a word character (start of string counts as a
boundary). -/
def containsMonth (prev : Bool) : List Char → Bool
  | [] => false
  | c :: cs => (!prev && monthAt (c :: cs)) || containsMonth (isWordChar c) cs

/-- `inferType` from `analyzer.ts` lines 616-630. -/
def inferType (text : String) : FieldType :=
  if text = "" then .text
  else if priceSymFirst text.data || priceSymLast text.data then .price
  else if numberFull text.data then .number
  else if containsDateAt text.data || containsMonth false text.data then .date
  else .text

/-- The key prefix the walker derives from a field type (template literals
at `analyzer.ts` lines 660, 669, 678). -/
def FieldType.keyName : FieldType → String
  | .text => "text"
  | .href => "href"
  | .url => "url"
  | .number => "number"
  | .date => "date"
  | .price => "price"

/-! ### Field extraction (`inferFields`, `analyzer.ts` lines 560-716)

`getSemanticClassSelector` is injected by `eval` in the source; it is an
explicit parameter `gss` here, instantiated by the embedded
`getSemanticClassSelector` in the real program. -/

/-- The name given to a link field (`analyzer.ts` line 661): the sanitized
text, or the literal `link` when the source text is empty. -/
def linkFieldName (text : String) : String :=
  if text = "" then "link" else sanitizeName text

/-- The name given to an image field (`analyzer.ts` lines 668-670): the
sanitized alt text, where an absent or empty `alt` is first replaced by the
literal `image`. -/
def imgFieldName (alt : String) : String :=
  sanitizeName (if alt = "" then "image" else alt)

/-- The name given to a leaf text field (`analyzer.ts` line 679): the
sanitized text, or the tag name when the source text is empty. -/
def leafFieldName (tagName text : String) : String :=
  if text = "" then tagName else sanitizeName text

/-- One discovery event of the tree walk: map key, first-occurrence name,
type, relative selector and this occurrence's sample value. -/
structure FieldEvent where
  key : String
  name : String
  type : FieldType
  selector : String
  sample : String
deriving DecidableEq, Repr

/-- `getRelativeSelector` from `analyzer.ts` lines 609-614. -/
def getRelativeSelector (gss : DomNode → String) (containerSel : String)
    (el : DomNode) : String :=
  let idStr := match el.getAttr "id" with
    | some i => if i = "" then "" else "#" ++ i
    | none => ""
  jsTrim (containerSel ++ " " ++ el.tagOf ++ idStr ++ gss el)

/-- The events one element produces (`inferFields` lines 649-683): the
link, image and leaf-text cases are three independent `if`s in the source
and can fire together for one element. -/
def elementEvents (gss : DomNode → String) (includeEmpty : Bool)
    (containerSel : String) (path : String) (el : DomNode) : List FieldEvent :=
  let tagName := el.tagOf
  if tagName = "script" || tagName = "style" then []
  else
    (if tagName = "a" && (el.getAttr "href").isSome then
      let href := (el.getAttr "href").getD ""
      let text := jsTrim (textContent el)
      if text ≠ "" || includeEmpty then
        [{ key := "link_" ++ path, name := linkFieldName text, type := .href
           selector := getRelativeSelector gss containerSel el, sample := href }]
      else []
    else []) ++
    (if tagName = "img" && (el.getAttr "src").isSome then
      let src := (el.getAttr "src").getD ""
      let alt := (el.getAttr "alt").getD ""
      [{ key := "img_" ++ path, name := imgFieldName alt, type := .url
         selector := getRelativeSelector gss containerSel el, sample := src }]
    else []) ++
    (if el.childCount = 0 then
      let text := jsTrim (textContent el)
      if text ≠ "" || includeEmpty then
        let t := inferType text
        [{ key := t.keyName ++ "_" ++ path, name := leafFieldName tagName text
           type := t, selector := getRelativeSelector gss containerSel el
           sample := text }]
      else []
    else [])

/-- The path fragment of one element in `getElementPath`
(`analyzer.ts` line 603). -/
def pathFragment (gss : DomNode → String) (n : DomNode) : String :=
  n.tagOf ++ gss n

/-- The `TreeWalker` pre-order walk over the descendants of a container
(the container itself is not visited), pairing every element with its
`getElementPath` string (ancestor chain of `tag + semClass` fragments from
just below the container down to the element, joined by `>`). -/
def descWithPath (gss : DomNode → String) (acc : String) :
    List DomNode → List (String × DomNode)
  | [] => []
  | n :: ns =>
      (match n with
       | .text _ => []
       | .elem t attrs cs =>
           let p := if acc = "" then pathFragment gss (.elem t attrs cs)
             else acc ++ ">" ++ pathFragment gss (.elem t attrs cs)
           (p, DomNode.elem t attrs cs) :: descWithPath gss p cs)
      ++ descWithPath gss acc ns

/-- An entry of the insertion-ordered `fieldMap`
(`analyzer.ts` lines 578-595). -/
structure FMEntry where
  name : String
  type : FieldType
  selector : String
  samples : List String

/-- `addToMap` from `analyzer.ts` lines 585-595: create the entry on first
sight of the key (metadata from the first occurrence), then append the
sample. -/
def addToMap (m : List (String × FMEntry)) (ev : FieldEvent) :
    List (String × FMEntry) :=
  if m.any (fun p => p.1 = ev.key) then
    m.map (fun p =>
      if p.1 = ev.key then (p.1, { p.2 with samples := p.2.samples ++ [ev.sample] })
      else p)
  else
    m ++ [(ev.key, { name := ev.name, type := ev.type, selector := ev.selector
                     samples := [ev.sample] })]

/-- `inferFields` from `analyzer.ts` lines 560-716. -/
def inferFields (gss : DomNode → String) (doc : DomNode) (pattern : DOMPattern)
    (options : AnalyzerOptions) : List Field :=
  let containers := querySelectorAll doc pattern.selector
  if containers.length = 0 then []
  else
    let events := (containers.take SAMPLE_COUNT).flatMap (fun pe =>
      descWithPath gss "" pe.node.childrenOf |>.flatMap (fun pe2 =>
        elementEvents gss options.includeEmpty pattern.selector pe2.1 pe2.2))
    let fmap := events.foldl addToMap []
    fmap.filterMap (fun p =>
      let uniqueSamples := p.2.samples.dedup.length
      let confidence : ℚ := (uniqueSamples : ℚ) / (p.2.samples.length : ℚ)
      if confidence ≥ options.confidenceThreshold then
        some { name := p.2.name, selector := p.2.selector, type := p.2.type
               confidence := round2 confidence, sample := p.2.samples.head? }
      else none)

/-! ### Confidence, errors and the analysis pipeline -/

/-- `calculateConfidence` from `analyzer.ts` lines 722-746. -/
def calculateConfidence (pattern : DOMPattern) (fields : List Field)
    (options : AnalyzerOptions) : ℚ :=
  if fields.length = 0 then 0
  else
    let countRatio := min ((pattern.count : ℚ) / (options.minItems : ℚ) / 2) 1
    let avgFieldConfidence := (fields.map Field.confidence).sum / (fields.length : ℚ)
    let fieldScore := min ((fields.length : ℚ) / 5) 1
    round2 (countRatio * (3/10) + avgFieldConfidence * (4/10) + fieldScore * (3/10))

/-- `AnalyzerError` from `src/utils/errors.ts`, restricted to the one error
code reachable inside the embedded engine core: `noPatternsFound url
minItems` models `AnalyzerError.noPatternsFound(url, minItems)` (code
`NO_PATTERNS_FOUND`).  The navigation-stage codes (`INVALID_URL`,
`PAGE_LOAD_FAILED`, `NAVIGATION_ERROR`, `BROWSER_ERROR`, `ABORTED`) belong
to the Document Provider boundary, which is outside the embedded core. -/
inductive AnalyzerError where
  | noPatternsFound (url : String) (minItems : Nat)
deriving DecidableEq, Repr

/-- The schema-assembly tail of `analyzeUrl` (`analyzer.ts` lines 190-213):
field inference, field-type filtering, deduplication, confidence and the
final record.  `now` is the wall-clock reading consumed by
`new Date().toISOString()`. -/
def buildSchema (gss : DomNode → String) (doc : DomNode) (url now : String)
    (options : AnalyzerOptions) (bestPattern : DOMPattern) : Schema :=
  let fields0 := inferFields gss doc bestPattern options
  let fields1 := if options.fieldTypes.length > 0 then
      fields0.filter (fun f => options.fieldTypes.contains f.type)
    else fields0
  let fields := deduplicateFields fields1
  { url := url
    timestamp := now
    containerSelector := bestPattern.selector
    fields := fields
    itemCount := bestPattern.count
    confidence := calculateConfidence bestPattern fields options }

/-- The engine core of `analyzeUrl` (`analyzer.ts` lines 163-213), after the
Document Provider has produced the document snapshot `doc`: manual-container
override or automatic mining plus scoring, then schema assembly.
`listPatterns`/`debug` only print and do not affect the result.  A JS
`options.containerSelector` is truthy exactly when it is present and
non-empty. -/
noncomputable def analyzeUrl (getSem : DomNode → List String)
    (gss : DomNode → String) (doc : DomNode) (url now : String)
    (options : AnalyzerOptions) : Except AnalyzerError Schema :=
  if options.containerSelector.getD "" ≠ "" then
    match getManualPattern doc (options.containerSelector.getD "") with
    | none => .error (.noPatternsFound url 1)
    | some bestPattern => .ok (buildSchema gss doc url now options bestPattern)
  else
    match selectBestPattern (findRepeatedPatterns getSem doc options) options with
    | none => .error (.noPatternsFound url options.minItems)
    | some bestPattern => .ok (buildSchema gss doc url now options bestPattern)

/-! ## Helper lemmas -/

/-- Characterization of a successful `emitGroup`. -/
lemma emitGroup_eq_some {tag : String} {options : AnalyzerOptions} {g : MGroup}
    {p : DOMPattern} (h : emitGroup tag options g = some p) :
    p.selector = tag ++ "." ++ intercalateChar '.' g.classes ∧
    options.minItems ≤ g.elems.length ∧ 1 ≤ g.classes.length ∧
    p.count = g.elems.length ∧
    p.samples = (g.elems.take 10).map (fun pe => mkSample pe.node) := by
  unfold emitGroup at h
  split at h
  · rename_i hcond
    cases h
    exact ⟨rfl, hcond.1, hcond.2, rfl, rfl⟩
  · cases h

/-- A pattern mined for one tag is the emission of some clustering group. -/
lemma mem_minePatternsForTag {getSem : DomNode → List String}
    {options : AnalyzerOptions} {allElems : List PElem} {tag : String}
    {p : DOMPattern} (h : p ∈ minePatternsForTag getSem options allElems tag) :
    ∃ g, emitGroup tag options g = some p := by
  simp only [minePatternsForTag] at h
  by_cases hlt : (allElems.filter
      (fun pe => pe.node.tagOf = tag && !pe.excluded)).length < options.minItems
  · rw [if_pos hlt] at h
    cases h
  · rw [if_neg hlt, List.mem_filterMap] at h
    obtain ⟨g, -, hg⟩ := h
    exact ⟨g, hg⟩

/-- Every mined pattern is the emission of some clustering group. -/
lemma mem_findRepeatedPatterns {getSem : DomNode → List String} {doc : DomNode}
    {options : AnalyzerOptions} {p : DOMPattern}
    (h : p ∈ findRepeatedPatterns getSem doc options) :
    ∃ tag g, emitGroup tag options g = some p := by
  unfold findRepeatedPatterns at h
  rw [List.mem_flatMap] at h
  obtain ⟨tag, -, hmem⟩ := h
  obtain ⟨g, hg⟩ := mem_minePatternsForTag hmem
  exact ⟨tag, g, hg⟩

/-! ### Decimal rendering of the dedup counter

`deduplicateFields` renders the repeat counter with a JS template literal,
i.e. decimal `Nat.repr`.  The lemmas below give the two facts the
uniqueness analysis needs: `Nat.repr` is injective and never contains an
underscore. -/

/-- Decimal digit list of a natural number, most significant first. -/
def decDigits (n : Nat) : List Char :=
  if n < 10 then [Nat.digitChar n]
  else decDigits (n / 10) ++ [Nat.digitChar (n % 10)]
decreasing_by exact Nat.div_lt_self (by omega) (by omega)

lemma decDigits_lt {n : Nat} (h : n < 10) : decDigits n = [Nat.digitChar n] := by
  conv_lhs => rw [decDigits]
  rw [if_pos h]

lemma decDigits_ge {n : Nat} (h : ¬ n < 10) :
    decDigits n = decDigits (n / 10) ++ [Nat.digitChar (n % 10)] := by
  conv_lhs => rw [decDigits]
  rw [if_neg h]

lemma decDigits_length_pos (n : Nat) : 0 < (decDigits n).length := by
  by_cases h : n < 10
  · rw [decDigits_lt h]
    simp
  · rw [decDigits_ge h]
    simp

lemma digitChar_inj_lt {a b : Nat} (ha : a < 10) (hb : b < 10)
    (h : Nat.digitChar a = Nat.digitChar b) : a = b := by
  have : ∀ x : Fin 10, ∀ y : Fin 10,
      Nat.digitChar x.val = Nat.digitChar y.val → x = y := by decide
  have h2 := this ⟨a, ha⟩ ⟨b, hb⟩ h
  exact congrArg Fin.val h2

lemma digitChar_ne_underscore {m : Nat} (hm : m < 10) : Nat.digitChar m ≠ '_' := by
  have : ∀ x : Fin 10, Nat.digitChar x.val ≠ '_' := by decide
  exact this ⟨m, hm⟩

lemma decDigits_no_underscore (n : Nat) : '_' ∉ decDigits n := by
  induction n using Nat.strong_induction_on with
  | _ n ih =>
    by_cases h : n < 10
    · rw [decDigits_lt h]
      simp only [List.mem_singleton]
      intro hc
      exact digitChar_ne_underscore h hc.symm
    · rw [decDigits_ge h]
      intro hc
      rcases List.mem_append.mp hc with h1 | h1
      · exact ih (n / 10) (Nat.div_lt_self (by omega) (by omega)) h1
      · have h2 := List.mem_singleton.mp h1
        exact digitChar_ne_underscore (Nat.mod_lt n (by omega)) h2.symm

lemma decDigits_inj : ∀ {a b : Nat}, decDigits a = decDigits b → a = b := by
  intro a
  induction a using Nat.strong_induction_on with
  | _ a ih =>
    intro b h
    by_cases ha : a < 10 <;> by_cases hb : b < 10
    · rw [decDigits_lt ha, decDigits_lt hb] at h
      exact digitChar_inj_lt ha hb (List.singleton_injective h)
    · rw [decDigits_lt ha, decDigits_ge hb] at h
      have hlen := congrArg List.length h
      simp only [List.length_singleton, List.length_append] at hlen
      have := decDigits_length_pos (b / 10)
      omega
    · rw [decDigits_ge ha, decDigits_lt hb] at h
      have hlen := congrArg List.length h
      simp only [List.length_singleton, List.length_append] at hlen
      have := decDigits_length_pos (a / 10)
      omega
    · rw [decDigits_ge ha, decDigits_ge hb] at h
      obtain ⟨h1, h2⟩ := List.append_inj' h (by simp)
      have hdiv : a / 10 = b / 10 :=
        ih (a / 10) (Nat.div_lt_self (by omega) (by omega)) h1
      have hmod : a % 10 = b % 10 :=
        digitChar_inj_lt (Nat.mod_lt a (by omega)) (Nat.mod_lt b (by omega))
          (List.singleton_injective h2)
      omega

lemma toDigitsCore_eq_decDigits :
    ∀ (fuel n : Nat) (acc : List Char), n < fuel →
      Nat.toDigitsCore 10 fuel n acc = decDigits n ++ acc := by
  intro fuel
  induction fuel with
  | zero => intro n acc h; omega
  | succ fuel ih =>
    intro n acc h
    rw [Nat.toDigitsCore]
    by_cases h0 : n / 10 = 0
    · have hn : n < 10 := by omega
      rw [if_pos h0, decDigits, if_pos hn, Nat.mod_eq_of_lt hn]
      simp
    · have hn : ¬ n < 10 := by
        intro hc
        exact h0 (Nat.div_eq_of_lt hc)
      rw [if_neg h0, ih (n / 10) (Nat.digitChar (n % 10) :: acc) (by omega)]
      rw [decDigits_ge hn]
      simp

lemma repr_eq_decDigits (n : Nat) : Nat.repr n = String.mk (decDigits n) := by
  show (Nat.toDigits 10 n).asString = String.mk (decDigits n)
  rw [Nat.toDigits, toDigitsCore_eq_decDigits (n + 1) n [] (by omega)]
  simp [List.asString]

lemma natRepr_injective {a b : Nat} (h : Nat.repr a = Nat.repr b) : a = b := by
  rw [repr_eq_decDigits, repr_eq_decDigits] at h
  exact decDigits_inj (congrArg String.data h)

lemma natRepr_no_underscore (n : Nat) : '_' ∉ (Nat.repr n).data := by
  rw [repr_eq_decDigits]
  exact decDigits_no_underscore n

/-- Splitting at the last underscore: if the suffixes after the final
underscore are underscore-free, the decomposition is unique. -/
lemma append_underscore_inj :
    ∀ (l1 : List Char) {l2 d1 d2 : List Char}, '_' ∉ d1 → '_' ∉ d2 →
      l1 ++ '_' :: d1 = l2 ++ '_' :: d2 → l1 = l2 ∧ d1 = d2 := by
  intro l1
  induction l1 with
  | nil =>
    intro l2 d1 d2 h1 h2 h
    cases l2 with
    | nil =>
      simp only [List.nil_append] at h
      exact ⟨rfl, (List.cons.injEq _ _ _ _ ▸ h).2⟩
    | cons c l2t =>
      simp only [List.nil_append, List.cons_append, List.cons.injEq] at h
      exfalso
      apply h1
      rw [h.2]
      exact List.mem_append.mpr (Or.inr (List.mem_cons_self _ _))
  | cons c l1t ih =>
    intro l2 d1 d2 h1 h2 h
    cases l2 with
    | nil =>
      simp only [List.cons_append, List.nil_append, List.cons.injEq] at h
      exfalso
      apply h2
      rw [← h.2]
      exact List.mem_append.mpr (Or.inr (List.mem_cons_self _ _))
    | cons c2 l2t =>
      simp only [List.cons_append, List.cons.injEq] at h
      obtain ⟨rfl, hrest⟩ := h
      obtain ⟨he, hd⟩ := ih h1 h2 hrest
      exact ⟨by rw [he], hd⟩

/-! ### Deduplication characterization -/

/-- Default `Field` for positional (`getD`) access in statements. -/
def dfield : Field := { name := "", selector := "", type := .text, confidence := 0, sample := none }

lemma get_eq_getD {α : Type} (l : List α) (i : Nat) (h : i < l.length) (d : α) :
    l.get ⟨i, h⟩ = l.getD i d := by
  rw [List.getD_eq_getElem?_getD, List.getElem?_eq_getElem h]
  rfl

lemma getD_mem {α : Type} {l : List α} {i : Nat} (h : i < l.length) (d : α) :
    l.getD i d ∈ l := by
  rw [← get_eq_getD l i h d]
  exact List.get_mem l i h

lemma seenCount_nil (k : String) : seenCount [] k = 0 := rfl

lemma seenCount_cons (k : String) (v : Nat) (seen : List (String × Nat))
    (name : String) :
    seenCount ((k, v) :: seen) name = if name = k then v else seenCount seen name := by
  unfold seenCount
  by_cases h : name = k
  · subst h
    simp [List.lookup]
  · have hbeq : (name == k) = false := beq_eq_false_iff_ne.mpr h
    simp [List.lookup, hbeq, h]

lemma deduplicateFieldsGo_length (seen : List (String × Nat)) (fields : List Field) :
    (deduplicateFieldsGo seen fields).length = fields.length := by
  induction fields generalizing seen with
  | nil => rfl
  | cons f rest ih => simp [deduplicateFieldsGo, ih]

/-- Positional characterization of the dedup traversal: the `i`-th output is
the `i`-th input, renamed with the running per-name counter when that counter
is positive. -/
lemma deduplicateFieldsGo_getD :
    ∀ (fields : List Field) (seen : List (String × Nat)) (i : Nat),
      i < fields.length →
      (deduplicateFieldsGo seen fields).getD i dfield =
        (if seenCount seen (fields.getD i dfield).name +
            ((fields.take i).filter
              (fun g => g.name = (fields.getD i dfield).name)).length = 0
         then fields.getD i dfield
         else { fields.getD i dfield with
                name := (fields.getD i dfield).name ++ "_" ++
                  Nat.repr (seenCount seen (fields.getD i dfield).name +
                    ((fields.take i).filter
                      (fun g => g.name = (fields.getD i dfield).name)).length) }) := by
  intro fields
  induction fields with
  | nil => intro seen i h; simp at h
  | cons f rest ih =>
    intro seen i h
    cases i with
    | zero =>
      simp only [deduplicateFieldsGo, List.getD_cons_zero, List.take_zero,
        List.filter_nil, List.length_nil, Nat.add_zero]
      by_cases hc : seenCount seen f.name = 0
      · simp [hc]
      · have hpos : seenCount seen f.name > 0 := Nat.pos_of_ne_zero hc
        simp [hc, hpos]
    | succ i =>
      simp only [deduplicateFieldsGo, List.getD_cons_succ]
      rw [ih ((f.name, seenCount seen f.name + 1) :: seen) i (by simpa using h)]
      have hcount :
          seenCount ((f.name, seenCount seen f.name + 1) :: seen)
              (rest.getD i dfield).name +
            ((rest.take i).filter
              (fun g => g.name = (rest.getD i dfield).name)).length =
          seenCount seen (rest.getD i dfield).name +
            (((f :: rest).take (i + 1)).filter
              (fun g => g.name = (rest.getD i dfield).name)).length := by
        rw [List.take_succ_cons, List.filter_cons, seenCount_cons]
        by_cases hn : (rest.getD i dfield).name = f.name
        · rw [if_pos hn,
            if_pos (by simp only [decide_eq_true_eq]; exact hn.symm)]
          simp only [List.length_cons]
          rw [hn]
          omega
        · rw [if_neg hn,
            if_neg (by simp only [decide_eq_true_eq]; exact fun hc => hn hc.symm)]
      rw [hcount]

/-- Positional characterization of `deduplicateFields` (counter starts
empty, so the counter value is the number of earlier same-named fields). -/
lemma deduplicateFields_getD (fields : List Field) (i : Nat)
    (h : i < fields.length) :
    (deduplicateFields fields).getD i dfield =
      (if ((fields.take i).filter
            (fun g => g.name = (fields.getD i dfield).name)).length = 0
       then fields.getD i dfield
       else { fields.getD i dfield with
              name := (fields.getD i dfield).name ++ "_" ++
                Nat.repr (((fields.take i).filter
                  (fun g => g.name = (fields.getD i dfield).name)).length) }) := by
  have hgo := deduplicateFieldsGo_getD fields [] i h
  rw [deduplicateFields, hgo, seenCount_nil, Nat.zero_add]

/-- Strictly more matches of `p` in a longer prefix, when the element at the
border position matches. -/
lemma filter_take_mono_lt {α : Type} (l : List α) (p : α → Bool) (d : α)
    {i j : Nat} (hij : i < j) (hi : i < l.length) (hp : p (l.getD i d) = true) :
    ((l.take i).filter p).length < ((l.take j).filter p).length := by
  have h1 : l.take (i + 1) = l.take i ++ [l.getD i d] := by
    rw [List.take_succ, List.getElem?_eq_getElem hi]
    rw [List.getD_eq_getElem?_getD, List.getElem?_eq_getElem hi]
    rfl
  have h2 : ((l.take (i + 1)).filter p).length = ((l.take i).filter p).length + 1 := by
    have hx : ∀ y : α, p y = true → (List.filter p [y]).length = 1 := by
      intro y hy
      simp [hy]
    rw [h1, List.filter_append, List.length_append, hx _ hp]
  have h3 : l.take (i + 1) <+: l.take j := by
    have := List.take_prefix (i + 1) (l.take j)
    rwa [List.take_take, Nat.min_eq_left hij] at this
  have h4 := (h3.filter p).length_le
  omega

/-- The central collision analysis: with no input name of the form
`base ++ "_" ++ decimal`, all output names of `deduplicateFields` are
pairwise distinct. -/
lemma dedup_names_distinct (fields : List Field)
    (hyp : ∀ f ∈ fields, ¬ ∃ b k, 1 ≤ k ∧ f.name = b ++ "_" ++ Nat.repr k) :
    ∀ i j, i < j → j < fields.length →
      ((deduplicateFields fields).getD i dfield).name ≠
        ((deduplicateFields fields).getD j dfield).name := by
  intro i j hij hj hne
  have hi : i < fields.length := lt_trans hij hj
  rw [deduplicateFields_getD fields i hi, deduplicateFields_getD fields j hj] at hne
  by_cases hc1 : ((fields.take i).filter
      (fun g => g.name = (fields.getD i dfield).name)).length = 0 <;>
    by_cases hc2 : ((fields.take j).filter
      (fun g => g.name = (fields.getD j dfield).name)).length = 0
  · rw [if_pos hc1, if_pos hc2] at hne
    have hlt := filter_take_mono_lt fields
      (fun g => g.name = (fields.getD j dfield).name) dfield hij hi
      (by simp only [decide_eq_true_eq]; exact hne)
    omega
  · rw [if_pos hc1, if_neg hc2] at hne
    exact hyp (fields.getD i dfield) (getD_mem hi dfield)
      ⟨(fields.getD j dfield).name, _, by omega, hne⟩
  · rw [if_neg hc1, if_pos hc2] at hne
    exact hyp (fields.getD j dfield) (getD_mem hj dfield)
      ⟨(fields.getD i dfield).name, _, by omega, hne.symm⟩
  · rw [if_neg hc1, if_neg hc2] at hne
    have hne2 : (fields.getD i dfield).name ++ "_" ++
        Nat.repr ((fields.take i).filter
          (fun g => g.name = (fields.getD i dfield).name)).length =
        (fields.getD j dfield).name ++ "_" ++
        Nat.repr ((fields.take j).filter
          (fun g => g.name = (fields.getD j dfield).name)).length := hne
    have hd : (fields.getD i dfield).name.data ++ '_' ::
        (Nat.repr ((fields.take i).filter
          (fun g => g.name = (fields.getD i dfield).name)).length).data =
        (fields.getD j dfield).name.data ++ '_' ::
        (Nat.repr ((fields.take j).filter
          (fun g => g.name = (fields.getD j dfield).name)).length).data := by
      have hdata := congrArg String.data hne2
      rw [String.data_append, String.data_append, String.data_append,
        String.data_append, List.append_assoc, List.append_assoc,
        show ("_" : String).data = ['_'] from rfl,
        List.singleton_append, List.singleton_append] at hdata
      exact hdata
    obtain ⟨hb, hk⟩ := append_underscore_inj _ (natRepr_no_underscore _)
      (natRepr_no_underscore _) hd
    have hname : (fields.getD i dfield).name = (fields.getD j dfield).name := by
      have := congrArg String.mk hb
      simpa using this
    have hck : ((fields.take i).filter
        (fun g => g.name = (fields.getD i dfield).name)).length =
        ((fields.take j).filter
          (fun g => g.name = (fields.getD j dfield).name)).length := by
      apply natRepr_injective
      have := congrArg String.mk hk
      simpa using this
    have hlt := filter_take_mono_lt fields
      (fun g => g.name = (fields.getD j dfield).name) dfield hij hi
      (by simp only [decide_eq_true_eq]; exact hname)
    rw [hname] at hck
    omega

/-- A name without any underscore is not of renamed form. -/
lemma no_underscore_no_suffix {s : String} (h : '_' ∉ s.data) :
    ¬ ∃ b k, 1 ≤ k ∧ s = b ++ "_" ++ Nat.repr k := by
  rintro ⟨b, k, -, hs⟩
  apply h
  rw [hs, String.data_append, String.data_append]
  refine List.mem_append.mpr (Or.inl (List.mem_append.mpr (Or.inr ?_)))
  decide

/-! ## Claim C3 — deduplication algorithm and name uniqueness

The renaming algorithm is exactly as claimed, but uniqueness of the
resulting names fails in general: a repeat of `a` is renamed to `a_1`,
which can collide with an input field literally named `a_1`.  Uniqueness
holds once no input name itself has the shape `base ++ "_" ++ decimal`. -/

/-- C3 counterexample: on input names `a`, `a_1`, `a` the second `a` is
renamed to `a_1`, colliding with the second input field, so two output
fields share a name. -/
theorem c3_counterexample :
    ¬ ((deduplicateFields
        [{ name := "a", selector := "s", type := .text, confidence := 1, sample := none },
         { name := "a_1", selector := "s", type := .text, confidence := 1, sample := none },
         { name := "a", selector := "s", type := .text, confidence := 1, sample := none }]).map
        Field.name).Nodup := by
  decide

/-- C3 amended: `deduplicateFields` processes fields in stable discovery
order, counting per-name occurrences: position `i` keeps its field unchanged
when its name has not occurred before, and the `N`-th repeat is renamed to
`name_N`; provided no input field name is itself of the form
`base ++ "_" ++ decimal-numeral`, no two output fields share a name. -/
theorem c3_dedup (fields : List Field)
    (hyp : ∀ f ∈ fields, ¬ ∃ b k, 1 ≤ k ∧ f.name = b ++ "_" ++ Nat.repr k) :
    ((deduplicateFields fields).map Field.name).Nodup ∧
    (deduplicateFields fields).length = fields.length ∧
    (∀ i, i < fields.length →
      (deduplicateFields fields).getD i dfield =
        (if ((fields.take i).filter
              (fun g => g.name = (fields.getD i dfield).name)).length = 0
         then fields.getD i dfield
         else { fields.getD i dfield with
                name := (fields.getD i dfield).name ++ "_" ++
                  Nat.repr (((fields.take i).filter
                    (fun g => g.name = (fields.getD i dfield).name)).length) })) := by
  have hlen : (deduplicateFields fields).length = fields.length :=
    deduplicateFieldsGo_length [] fields
  refine ⟨?_, hlen, fun i hi => deduplicateFields_getD fields i hi⟩
  rw [List.nodup_iff_injective_get]
  intro a b heq
  have ha : (a : Nat) < fields.length := by
    have := a.isLt
    simpa [hlen] using this
  have hb : (b : Nat) < fields.length := by
    have := b.isLt
    simpa [hlen] using this
  rw [List.get_map, List.get_map] at heq
  have heq2 : ((deduplicateFields fields).getD (a : Nat) dfield).name =
      ((deduplicateFields fields).getD (b : Nat) dfield).name := by
    rw [← get_eq_getD _ _ (by simpa [hlen] using ha) dfield,
        ← get_eq_getD _ _ (by simpa [hlen] using hb) dfield]
    exact heq
  rcases lt_trichotomy (a : Nat) (b : Nat) with hlt | heqv | hgt
  · exact absurd heq2 (dedup_names_distinct fields hyp _ _ hlt hb)
  · exact Fin.ext heqv
  · exact absurd heq2.symm (dedup_names_distinct fields hyp _ _ hgt ha)

/-- C3 witness: the amended theorem on three concrete fields named
`title`, `price`, `title` (no name of renamed shape). -/
theorem c3_witness :
    (∀ f ∈ ([{ name := "title", selector := "s", type := .text, confidence := 1, sample := none },
              { name := "price", selector := "s", type := .text, confidence := 1, sample := none },
              { name := "title", selector := "s", type := .text, confidence := 1, sample := none }] :
        List Field),
      ¬ ∃ b k, 1 ≤ k ∧ f.name = b ++ "_" ++ Nat.repr k) ∧
    ((deduplicateFields
        [{ name := "title", selector := "s", type := .text, confidence := 1, sample := none },
         { name := "price", selector := "s", type := .text, confidence := 1, sample := none },
         { name := "title", selector := "s", type := .text, confidence := 1, sample := none }]).map
        Field.name).Nodup := by
  have hyp : ∀ f ∈ ([{ name := "title", selector := "s", type := .text, confidence := 1, sample := none },
              { name := "price", selector := "s", type := .text, confidence := 1, sample := none },
              { name := "title", selector := "s", type := .text, confidence := 1, sample := none }] :
        List Field),
      ¬ ∃ b k, 1 ≤ k ∧ f.name = b ++ "_" ++ Nat.repr k := by
    intro f hf
    apply no_underscore_no_suffix
    fin_cases hf <;> decide
  exact ⟨hyp, (c3_dedup _ hyp).1⟩

/-! ## Claim C10 — deduplication is a pure renaming (frame property) -/

/-- C10: `deduplicateFields` preserves length and order, keeps every
non-name component of every field, and returns fields whose name has not
occurred earlier entirely unchanged. -/
theorem c10_dedup_frame (fields : List Field) :
    (deduplicateFields fields).length = fields.length ∧
    (∀ i, i < fields.length →
      ((deduplicateFields fields).getD i dfield).selector =
        (fields.getD i dfield).selector ∧
      ((deduplicateFields fields).getD i dfield).type =
        (fields.getD i dfield).type ∧
      ((deduplicateFields fields).getD i dfield).confidence =
        (fields.getD i dfield).confidence ∧
      ((deduplicateFields fields).getD i dfield).sample =
        (fields.getD i dfield).sample) ∧
    (∀ i, i < fields.length →
      ((fields.take i).filter
        (fun g => g.name = (fields.getD i dfield).name)).length = 0 →
      (deduplicateFields fields).getD i dfield = fields.getD i dfield) := by
  refine ⟨deduplicateFieldsGo_length [] fields, ?_, ?_⟩
  · intro i hi
    rw [deduplicateFields_getD fields i hi]
    split
    · exact ⟨rfl, rfl, rfl, rfl⟩
    · exact ⟨rfl, rfl, rfl, rfl⟩
  · intro i hi h0
    rw [deduplicateFields_getD fields i hi, if_pos h0]

/-- C10 witness: the frame property on two concrete same-named fields; the
renamed second field keeps its non-name components and the first field is
returned unchanged. -/
theorem c10_witness :
    (deduplicateFields
        [{ name := "a", selector := "s1", type := .text, confidence := 1, sample := none },
         { name := "a", selector := "s2", type := .href, confidence := 1/2, sample := some "x" }]).length = 2 ∧
    ((deduplicateFields
        [{ name := "a", selector := "s1", type := .text, confidence := 1, sample := none },
         { name := "a", selector := "s2", type := .href, confidence := 1/2, sample := some "x" }]).getD 1 dfield).confidence =
      (([{ name := "a", selector := "s1", type := .text, confidence := 1, sample := none },
          { name := "a", selector := "s2", type := .href, confidence := 1/2, sample := some "x" }] :
        List Field).getD 1 dfield).confidence ∧
    (deduplicateFields
        [{ name := "a", selector := "s1", type := .text, confidence := 1, sample := none },
         { name := "a", selector := "s2", type := .href, confidence := 1/2, sample := some "x" }]).getD 0 dfield =
      ([{ name := "a", selector := "s1", type := .text, confidence := 1, sample := none },
        { name := "a", selector := "s2", type := .href, confidence := 1/2, sample := some "x" }] :
        List Field).getD 0 dfield := by
  refine ⟨(c10_dedup_frame _).1, ((c10_dedup_frame _).2.1 1 (by decide)).2.2.1,
    (c10_dedup_frame _).2.2 0 (by decide) (by decide)⟩

/-! ### Confidence bounds machinery -/

lemma round2_bounds {q : ℚ} (h0 : 0 ≤ q) (h1 : q ≤ 1) :
    0 ≤ round2 q ∧ round2 q ≤ 1 := by
  unfold round2 jsRound
  constructor
  · apply div_nonneg _ (by norm_num)
    have hz : (0:ℤ) ≤ ⌊q * 100 + 1/2⌋ := by
      apply Int.floor_nonneg.mpr
      nlinarith
    exact_mod_cast hz
  · rw [div_le_one (by norm_num)]
    have hz : ⌊q * 100 + 1/2⌋ ≤ 100 := by
      rw [Int.floor_le_iff]
      push_cast
      nlinarith
    exact_mod_cast hz

lemma dedup_ratio_bounds (samples : List String) :
    0 ≤ ((samples.dedup.length : ℚ) / (samples.length : ℚ)) ∧
      ((samples.dedup.length : ℚ) / (samples.length : ℚ)) ≤ 1 := by
  refine ⟨by positivity, ?_⟩
  by_cases h : samples.length = 0
  · rw [h]
    norm_num
  · rw [div_le_one (by exact_mod_cast Nat.pos_of_ne_zero h)]
    exact_mod_cast (List.dedup_sublist samples).length_le

/-- Every field emitted by `inferFields` carries a confidence in `[0, 1]`. -/
lemma mem_inferFields_confidence {gss : DomNode → String} {doc : DomNode}
    {pattern : DOMPattern} {options : AnalyzerOptions} :
    ∀ f ∈ inferFields gss doc pattern options,
      0 ≤ f.confidence ∧ f.confidence ≤ 1 := by
  intro f hf
  simp only [inferFields] at hf
  by_cases hc : (querySelectorAll doc pattern.selector).length = 0
  · rw [if_pos hc] at hf
    cases hf
  · rw [if_neg hc, List.mem_filterMap] at hf
    obtain ⟨p, -, hsome⟩ := hf
    by_cases ht : ((p.2.samples.dedup.length : ℚ) / (p.2.samples.length : ℚ)) ≥
        options.confidenceThreshold
    · rw [if_pos ht] at hsome
      injection hsome with hfeq
      subst hfeq
      exact round2_bounds (dedup_ratio_bounds p.2.samples).1
        (dedup_ratio_bounds p.2.samples).2
    · rw [if_neg ht] at hsome
      cases hsome

/-- Deduplication only renames, so it preserves the multiset of confidence
values up to membership. -/
lemma mem_deduplicateFieldsGo_confidence :
    ∀ (fields : List Field) (seen : List (String × Nat)) (f : Field),
      f ∈ deduplicateFieldsGo seen fields →
      ∃ g ∈ fields, f.confidence = g.confidence := by
  intro fields
  induction fields with
  | nil => intro seen f hf; cases hf
  | cons x rest ih =>
    intro seen f hf
    rw [deduplicateFieldsGo] at hf
    rcases List.mem_cons.mp hf with h | h
    · refine ⟨x, List.mem_cons_self x rest, ?_⟩
      rw [h]
      split <;> rfl
    · obtain ⟨g, hg, he⟩ := ih _ f h
      exact ⟨g, List.mem_cons_of_mem _ hg, he⟩

/-- Bounds for the aggregate confidence, given per-field bounds. -/
lemma calculateConfidence_bounds (pattern : DOMPattern) (fields : List Field)
    (options : AnalyzerOptions)
    (hf : ∀ f ∈ fields, 0 ≤ f.confidence ∧ f.confidence ≤ 1) :
    0 ≤ calculateConfidence pattern fields options ∧
      calculateConfidence pattern fields options ≤ 1 := by
  unfold calculateConfidence
  by_cases h0 : fields.length = 0
  · rw [if_pos h0]
    norm_num
  · rw [if_neg h0]
    have hlen : (0:ℚ) < (fields.length : ℚ) := by
      exact_mod_cast Nat.pos_of_ne_zero h0
    have hcr0 : 0 ≤ min ((pattern.count : ℚ) / (options.minItems : ℚ) / 2) 1 :=
      le_min (by positivity) zero_le_one
    have hcr1 : min ((pattern.count : ℚ) / (options.minItems : ℚ) / 2) 1 ≤ 1 :=
      min_le_right _ _
    have hsum0 : 0 ≤ (fields.map Field.confidence).sum := by
      apply List.sum_nonneg
      intro x hx
      rw [List.mem_map] at hx
      obtain ⟨g, hg, rfl⟩ := hx
      exact (hf g hg).1
    have hsum1 : (fields.map Field.confidence).sum ≤ (fields.length : ℚ) := by
      have := List.sum_le_card_nsmul (fields.map Field.confidence) 1 (by
        intro x hx
        rw [List.mem_map] at hx
        obtain ⟨g, hg, rfl⟩ := hx
        exact (hf g hg).2)
      simpa [List.length_map, nsmul_eq_mul] using this
    have havg0 : 0 ≤ (fields.map Field.confidence).sum / (fields.length : ℚ) :=
      div_nonneg hsum0 (le_of_lt hlen)
    have havg1 : (fields.map Field.confidence).sum / (fields.length : ℚ) ≤ 1 :=
      (div_le_one hlen).mpr hsum1
    have hfs0 : 0 ≤ min ((fields.length : ℚ) / 5) 1 :=
      le_min (by positivity) zero_le_one
    have hfs1 : min ((fields.length : ℚ) / 5) 1 ≤ 1 := min_le_right _ _
    apply round2_bounds
    · nlinarith
    · nlinarith

/-- A successful analysis is the schema assembly of some best pattern. -/
lemma analyzeUrl_ok {getSem : DomNode → List String} {gss : DomNode → String}
    {doc : DomNode} {url now : String} {options : AnalyzerOptions} {s : Schema}
    (h : analyzeUrl getSem gss doc url now options = .ok s) :
    ∃ bp, s = buildSchema gss doc url now options bp := by
  unfold analyzeUrl at h
  by_cases hc : options.containerSelector.getD "" ≠ ""
  · rw [if_pos hc] at h
    cases hm : getManualPattern doc (options.containerSelector.getD "") with
    | none => rw [hm] at h; cases h
    | some bp =>
      rw [hm] at h
      injection h with h2
      exact ⟨bp, h2.symm⟩
  · rw [if_neg hc] at h
    cases hm : selectBestPattern (findRepeatedPatterns getSem doc options) options with
    | none => rw [hm] at h; cases h
    | some bp =>
      rw [hm] at h
      injection h with h2
      exact ⟨bp, h2.symm⟩

/-- Every field of an assembled schema comes (confidence-preservingly) from
`inferFields`. -/
lemma buildSchema_field_bounds (gss : DomNode → String) (doc : DomNode)
    (url now : String) (options : AnalyzerOptions) (bp : DOMPattern) :
    ∀ f ∈ (buildSchema gss doc url now options bp).fields,
      0 ≤ f.confidence ∧ f.confidence ≤ 1 := by
  intro f hf
  have hfields : (buildSchema gss doc url now options bp).fields =
      deduplicateFields (if options.fieldTypes.length > 0 then
        (inferFields gss doc bp options).filter
          (fun g => options.fieldTypes.contains g.type)
      else inferFields gss doc bp options) := rfl
  rw [hfields] at hf
  obtain ⟨g, hg, he⟩ := mem_deduplicateFieldsGo_confidence _ [] f hf
  rw [he]
  by_cases hft : options.fieldTypes.length > 0
  · rw [if_pos hft] at hg
    exact mem_inferFields_confidence g (List.mem_filter.mp hg).1
  · rw [if_neg hft] at hg
    exact mem_inferFields_confidence g hg

/-! ## Claim C4 — confidence bounds and the aggregate formula -/

/-- C4: every field confidence emitted by `inferFields`, every field
confidence in a successfully produced schema, and the aggregate schema
confidence lie in `[0, 1]`; the aggregate equals the claimed weighted blend
(rounded to two decimals) when at least one field survives, and `0` when no
field survives. -/
theorem c4_confidence_bounds :
    (∀ (gss : DomNode → String) (doc : DomNode) (pattern : DOMPattern)
        (options : AnalyzerOptions),
      ∀ f ∈ inferFields gss doc pattern options,
        0 ≤ f.confidence ∧ f.confidence ≤ 1) ∧
    (∀ (getSem : DomNode → List String) (gss : DomNode → String) (doc : DomNode)
        (url now : String) (options : AnalyzerOptions) (s : Schema),
      analyzeUrl getSem gss doc url now options = .ok s →
        (∀ f ∈ s.fields, 0 ≤ f.confidence ∧ f.confidence ≤ 1) ∧
        0 ≤ s.confidence ∧ s.confidence ≤ 1) ∧
    (∀ (pattern : DOMPattern) (fields : List Field) (options : AnalyzerOptions),
      fields ≠ [] →
      calculateConfidence pattern fields options =
        round2 ((3/10) * min ((pattern.count : ℚ) / (options.minItems : ℚ) / 2) 1 +
          (4/10) * ((fields.map Field.confidence).sum / (fields.length : ℚ)) +
          (3/10) * min ((fields.length : ℚ) / 5) 1)) ∧
    (∀ (pattern : DOMPattern) (options : AnalyzerOptions),
      calculateConfidence pattern [] options = 0) := by
  refine ⟨fun gss doc pattern options => mem_inferFields_confidence, ?_, ?_, ?_⟩
  · intro getSem gss doc url now options s hok
    obtain ⟨bp, rfl⟩ := analyzeUrl_ok hok
    refine ⟨buildSchema_field_bounds gss doc url now options bp, ?_⟩
    have hconf : (buildSchema gss doc url now options bp).confidence =
        calculateConfidence bp (buildSchema gss doc url now options bp).fields
          options := rfl
    rw [hconf]
    exact calculateConfidence_bounds _ _ _
      (buildSchema_field_bounds gss doc url now options bp)
  · intro pattern fields options hne
    have h0 : ¬ fields.length = 0 := by
      intro hc
      exact hne (List.length_eq_zero.mp hc)
    unfold calculateConfidence
    rw [if_neg h0]
    ring_nf
  · intro pattern options
    rfl

/-! ### Concrete sample inputs for witnesses -/

/-- A tiny concrete document (two product cards) used by several witnesses. -/
def sampleDoc : DomNode :=
  .elem "html" [] [
    .elem "body" [] [
      .elem "div" [("class", "card")] [
        .elem "h2" [] [.text "Alpha"],
        .elem "a" [("href", "/a")] [.text "Read Alpha"]],
      .elem "div" [("class", "card")] [
        .elem "h2" [] [.text "Beta"],
        .elem "a" [("href", "/b")] [.text "Read Beta"]]]]

/-- A concrete injected classifier for witnesses: every class token is
treated as semantic. -/
def sampleGetSem : DomNode → List String := fun n => n.classList

/-- A concrete injected selector-fragment function for witnesses. -/
def sampleGss : DomNode → String := fun _ => ""

/-- Concrete options with a manual container selector. -/
def sampleManualOpts : AnalyzerOptions :=
  { minItems := 3, maxDepth := 10, fieldTypes := [], includeEmpty := false,
    confidenceThreshold := 7/10, containerSelector := some "div.card" }

/-- The manual pattern the sample document yields for `div.card`. -/
def samplePat : DOMPattern :=
  (getManualPattern sampleDoc "div.card").getD
    { selector := "", count := 0, depth := 0, samples := [] }

/-- C4 witness: a concrete successful analysis through the manual-container
path; its schema confidence obeys the proved bounds. -/
theorem c4_witness :
    analyzeUrl sampleGetSem sampleGss sampleDoc "http://example.test"
        "2024-01-01T00:00:00.000Z" sampleManualOpts =
      .ok (buildSchema sampleGss sampleDoc "http://example.test"
        "2024-01-01T00:00:00.000Z" sampleManualOpts samplePat) ∧
    0 ≤ (buildSchema sampleGss sampleDoc "http://example.test"
        "2024-01-01T00:00:00.000Z" sampleManualOpts samplePat).confidence ∧
    (buildSchema sampleGss sampleDoc "http://example.test"
        "2024-01-01T00:00:00.000Z" sampleManualOpts samplePat).confidence ≤ 1 := by
  have hok : analyzeUrl sampleGetSem sampleGss sampleDoc "http://example.test"
      "2024-01-01T00:00:00.000Z" sampleManualOpts =
      .ok (buildSchema sampleGss sampleDoc "http://example.test"
        "2024-01-01T00:00:00.000Z" sampleManualOpts samplePat) := rfl
  exact ⟨hok, (c4_confidence_bounds.2.1 _ _ _ _ _ _ _ hok).2⟩

/-! ## Claim C2 — determinism of the analysis

The engine core is a pure function of (document, configuration, clock):
every schema component except the timestamp is determined by document and
configuration alone.  The timestamp, however, is `new Date().toISOString()`
(`analyzer.ts` line 206) — a wall-clock reading, not a function of
`(d, c)` — so two runs are byte-identical only when the clock readings
coincide, and the claim as stated (timestamp included) is false. -/

/-- C2 counterexample: the same document and configuration analyzed at two
different clock readings produce different Schema values (they differ in the
timestamp component). -/
theorem c2_counterexample :
    analyzeUrl sampleGetSem sampleGss sampleDoc "http://example.test"
        "2024-01-01T00:00:00.000Z" sampleManualOpts ≠
      analyzeUrl sampleGetSem sampleGss sampleDoc "http://example.test"
        "2024-01-02T00:00:00.000Z" sampleManualOpts := by
  intro heq
  have h1 : analyzeUrl sampleGetSem sampleGss sampleDoc "http://example.test"
      "2024-01-01T00:00:00.000Z" sampleManualOpts =
      .ok (buildSchema sampleGss sampleDoc "http://example.test"
        "2024-01-01T00:00:00.000Z" sampleManualOpts samplePat) := rfl
  have h2 : analyzeUrl sampleGetSem sampleGss sampleDoc "http://example.test"
      "2024-01-02T00:00:00.000Z" sampleManualOpts =
      .ok (buildSchema sampleGss sampleDoc "http://example.test"
        "2024-01-02T00:00:00.000Z" sampleManualOpts samplePat) := rfl
  rw [h1, h2] at heq
  injection heq with hs
  have ht := congrArg Schema.timestamp hs
  have ht2 : ("2024-01-01T00:00:00.000Z" : String) = "2024-01-02T00:00:00.000Z" := ht
  exact absurd ht2 (by decide)

/-- C2 amended: the analysis is deterministic in the document and the
configuration — two runs agree on every Schema component except the
timestamp, which equals each run's own clock reading; in particular two
runs with equal clock readings produce identical Schema values. -/
theorem c2_determinism (getSem : DomNode → List String) (gss : DomNode → String)
    (doc : DomNode) (url : String) (options : AnalyzerOptions)
    (now1 now2 : String) :
    analyzeUrl getSem gss doc url now1 options =
      (analyzeUrl getSem gss doc url now2 options).map
        (fun s => { s with timestamp := now1 }) := by
  unfold analyzeUrl
  by_cases hc : options.containerSelector.getD "" ≠ ""
  · rw [if_pos hc, if_pos hc]
    cases getManualPattern doc (options.containerSelector.getD "") with
    | none => rfl
    | some bp => rfl
  · rw [if_neg hc, if_neg hc]
    cases selectBestPattern (findRepeatedPatterns getSem doc options) options with
    | none => rfl
    | some bp => rfl

/-! ## Claim C7 — manual container override -/

/-- Shape of a successful manual-container query. -/
lemma getManualPattern_spec (doc : DomNode) (sel : String) :
    (querySelectorAll doc sel = [] → getManualPattern doc sel = none) ∧
    (querySelectorAll doc sel ≠ [] →
      ∃ p, getManualPattern doc sel = some p ∧ p.selector = sel ∧
        p.count = (querySelectorAll doc sel).length) := by
  constructor
  · intro hq
    simp only [getManualPattern, hq]
  · intro hq
    cases hqq : querySelectorAll doc sel with
    | nil => exact absurd hqq hq
    | cons a l =>
      refine ⟨{ selector := sel, count := (a :: l).length, depth := a.depth,
                samples := ((a :: l).take 5).map (fun pe => mkSample pe.node) },
        ?_, rfl, ?_⟩
      · simp only [getManualPattern, hqq]
      · rfl

/-- C7: with a (truthy) manual container selector, mining and scoring are
bypassed: a zero-match query fails with `NoPatternsFound` at effective
`minItems = 1` whatever the other options are, and a non-empty match feeds a
single pattern built from the matched set straight into schema assembly
(field extraction). -/
theorem c7_manual_override (getSem : DomNode → List String)
    (gss : DomNode → String) (doc : DomNode) (url now sel : String)
    (options : AnalyzerOptions) (hsel : options.containerSelector = some sel)
    (hne : sel ≠ "") :
    (querySelectorAll doc sel = [] →
      analyzeUrl getSem gss doc url now options =
        .error (.noPatternsFound url 1)) ∧
    (querySelectorAll doc sel ≠ [] →
      ∃ p, getManualPattern doc sel = some p ∧
        analyzeUrl getSem gss doc url now options =
          .ok (buildSchema gss doc url now options p) ∧
        p.selector = sel ∧ p.count = (querySelectorAll doc sel).length) := by
  have hgd : options.containerSelector.getD "" = sel := by rw [hsel]; rfl
  constructor
  · intro hq
    have hnone : getManualPattern doc sel = none :=
      (getManualPattern_spec doc sel).1 hq
    unfold analyzeUrl
    rw [hgd, if_pos hne, hnone]
  · intro hq
    obtain ⟨p, hsome, hps, hpc⟩ := (getManualPattern_spec doc sel).2 hq
    refine ⟨p, hsome, ?_, hps, hpc⟩
    unfold analyzeUrl
    rw [hgd, if_pos hne, hsome]

/-- C7 witness: a concrete manual selector matching nothing in the sample
document yields `NoPatternsFound` with `minItems = 1`. -/
theorem c7_witness :
    ({ sampleManualOpts with containerSelector := some "ul.nope" } :
      AnalyzerOptions).containerSelector = some "ul.nope" ∧
    ("ul.nope" : String) ≠ "" ∧
    analyzeUrl sampleGetSem sampleGss sampleDoc "http://example.test"
        "2024-01-01T00:00:00.000Z"
        { sampleManualOpts with containerSelector := some "ul.nope" } =
      .error (.noPatternsFound "http://example.test" 1) := by
  refine ⟨rfl, by decide, ?_⟩
  exact (c7_manual_override sampleGetSem sampleGss sampleDoc
    "http://example.test" "2024-01-01T00:00:00.000Z" "ul.nope"
    { sampleManualOpts with containerSelector := some "ul.nope" }
    rfl (by decide)).1 rfl

/-! ### Clustering-invariant machinery (claim C8) -/

/-- Default group for positional (`getD`) access in statements. -/
def dgroup : MGroup := { classes := [], elems := [] }

/-- Soundness of the best-group search: a returned index points into the
scanned list and the returned intersection is the intersection with that
group's signature (and is non-empty). -/
lemma bestGroupSearchAux_spec (semClasses : List String) :
    ∀ (gs : List MGroup) (idx : Nat) (best : Option Nat × List String)
      (i : Nat) (inter : List String),
      bestGroupSearchAux semClasses idx best gs = (some i, inter) →
      best = (some i, inter) ∨
        (idx ≤ i ∧ i - idx < gs.length ∧
          inter = classIntersection semClasses (gs.getD (i - idx) dgroup).classes ∧
          1 ≤ inter.length) := by
  intro gs
  induction gs with
  | nil =>
    intro idx best i inter h
    exact Or.inl h
  | cons g rest ih =>
    intro idx best i inter h
    simp only [bestGroupSearchAux] at h
    by_cases hcond : ((classIntersection semClasses g.classes).length ≥ 1 &&
        decide ((classIntersection semClasses g.classes).length > best.2.length)) = true
    · rw [if_pos hcond] at h
      rcases ih (idx + 1) (some idx, classIntersection semClasses g.classes)
          i inter h with heq | ⟨h1, h2, h3, h4⟩
      · injection heq with ha hb
        injection ha with ha2
        right
        subst ha2
        refine ⟨le_refl _, by simp, ?_, ?_⟩
        · rw [Nat.sub_self]
          exact hb.symm
        · rw [← hb]
          simp only [Bool.and_eq_true, decide_eq_true_eq, ge_iff_le] at hcond
          exact hcond.1
      · right
        have hge : idx + 1 ≤ i := h1
        refine ⟨by omega, by simp; omega, ?_, h4⟩
        have hsub : i - idx = (i - (idx + 1)) + 1 := by omega
        rw [hsub, List.getD_cons_succ]
        exact h3
    · rw [if_neg hcond] at h
      rcases ih (idx + 1) best i inter h with heq | ⟨h1, h2, h3, h4⟩
      · exact Or.inl heq
      · right
        refine ⟨by omega, by simp; omega, ?_, h4⟩
        have hsub : i - idx = (i - (idx + 1)) + 1 := by omega
        rw [hsub, List.getD_cons_succ]
        exact h3

lemma bestGroupSearch_spec {semClasses : List String} {groups : List MGroup}
    {i : Nat} {inter : List String}
    (h : bestGroupSearch semClasses groups = (some i, inter)) :
    i < groups.length ∧
      inter = classIntersection semClasses (groups.getD i dgroup).classes ∧
      1 ≤ inter.length := by
  rcases bestGroupSearchAux_spec semClasses groups 0 (none, []) i inter h with
    heq | ⟨-, h2, h3, h4⟩
  · exact absurd (congrArg Prod.fst heq) (by simp)
  · rw [Nat.sub_zero] at h2 h3
    exact ⟨h2, h3, h4⟩

lemma updateGroup_length :
    ∀ (groups : List MGroup) (i : Nat) (inter : List String) (el : PElem),
      (updateGroup groups i inter el).length = groups.length := by
  intro groups
  induction groups with
  | nil => intro i inter el; cases i <;> rfl
  | cons g gs ih =>
    intro i inter el
    cases i with
    | zero => rfl
    | succ n => simp only [updateGroup, List.length_cons, ih]

lemma updateGroup_getD_eq :
    ∀ (groups : List MGroup) (i : Nat) (inter : List String) (el : PElem),
      i < groups.length →
      (updateGroup groups i inter el).getD i dgroup =
        { classes := inter, elems := (groups.getD i dgroup).elems ++ [el] } := by
  intro groups
  induction groups with
  | nil => intro i inter el h; simp at h
  | cons g gs ih =>
    intro i inter el h
    cases i with
    | zero => rfl
    | succ n =>
      simp only [updateGroup, List.getD_cons_succ]
      exact ih n inter el (by simpa using h)

lemma updateGroup_getD_ne :
    ∀ (groups : List MGroup) (i j : Nat) (inter : List String) (el : PElem),
      j ≠ i →
      (updateGroup groups i inter el).getD j dgroup = groups.getD j dgroup := by
  intro groups
  induction groups with
  | nil => intro i j inter el h; cases i <;> rfl
  | cons g gs ih =>
    intro i j inter el hne
    cases i with
    | zero =>
      cases j with
      | zero => exact absurd rfl hne
      | succ m => simp only [updateGroup, List.getD_cons_succ]
    | succ n =>
      cases j with
      | zero => rfl
      | succ m =>
        simp only [updateGroup, List.getD_cons_succ]
        exact ih n m inter el (by omega)

lemma classIntersection_subset (c1 c2 : List String) :
    ∀ x ∈ classIntersection c1 c2, x ∈ c2 := by
  intro x hx
  unfold classIntersection at hx
  obtain ⟨-, hx2⟩ := List.mem_filter.mp hx
  simpa using hx2

lemma classIntersection_length_le (c1 c2 : List String) (h : c1.Nodup) :
    (classIntersection c1 c2).length ≤ c2.length := by
  have hnd : (classIntersection c1 c2).Nodup := h.filter _
  have hsub : classIntersection c1 c2 ⊆ c2 := fun x hx =>
    classIntersection_subset c1 c2 x hx
  exact (hnd.subperm hsub).length_le

/-- The three possible outcomes of one clustering step. -/
lemma mineStep_cases (getSem : DomNode → List String) (options : AnalyzerOptions)
    (groups : List MGroup) (el : PElem) :
    mineStep getSem options groups el = groups ∨
    (∃ i inter, bestGroupSearch (getSem el.node) groups = (some i, inter) ∧
      i < groups.length ∧
      inter = classIntersection (getSem el.node) (groups.getD i dgroup).classes ∧
      mineStep getSem options groups el = updateGroup groups i inter el) ∨
    mineStep getSem options groups el =
      groups ++ [{ classes := getSem el.node, elems := [el] }] := by
  unfold mineStep
  by_cases hfil : passesSizeFilters options el = true
  · rw [if_neg (by simp [hfil])]
    by_cases hsem : (getSem el.node).length = 0
    · rw [if_pos hsem]
      exact Or.inl rfl
    · rw [if_neg hsem]
      cases hbs : bestGroupSearch (getSem el.node) groups with
      | mk o inter =>
        cases o with
        | none => exact Or.inr (Or.inr rfl)
        | some i =>
          obtain ⟨hlt, hint, -⟩ := bestGroupSearch_spec hbs
          exact Or.inr (Or.inl ⟨i, inter, rfl, hlt, hint, rfl⟩)
  · rw [if_pos (by simp [Bool.not_eq_true] at hfil ⊢; exact hfil)]
    exact Or.inl rfl

/-- One clustering step never grows signatures: every surviving group's
signature is a sub-collection of what it was. -/
lemma mineStep_mono (getSem : DomNode → List String) (options : AnalyzerOptions)
    (groups : List MGroup) (el : PElem) (hnodup : (getSem el.node).Nodup) :
    groups.length ≤ (mineStep getSem options groups el).length ∧
    ∀ i, i < groups.length →
      ((mineStep getSem options groups el).getD i dgroup).classes.length ≤
        ((groups.getD i dgroup).classes).length ∧
      (∀ c ∈ ((mineStep getSem options groups el).getD i dgroup).classes,
        c ∈ (groups.getD i dgroup).classes) := by
  rcases mineStep_cases getSem options groups el with
    heq | ⟨i0, inter, hbs, hlt, hint, heq⟩ | heq
  · rw [heq]
    exact ⟨le_refl _, fun i hi => ⟨le_refl _, fun c hc => hc⟩⟩
  · rw [heq]
    refine ⟨by rw [updateGroup_length], ?_⟩
    intro i hi
    by_cases hii : i = i0
    · subst hii
      rw [updateGroup_getD_eq groups i inter el hlt]
      constructor
      · rw [hint]
        exact classIntersection_length_le _ _ hnodup
      · intro c hc
        rw [hint] at hc
        exact classIntersection_subset _ _ c hc
    · rw [updateGroup_getD_ne groups i0 i inter el hii]
      exact ⟨le_refl _, fun c hc => hc⟩
  · rw [heq]
    constructor
    · simp
    · intro i hi
      rw [List.getD_append _ _ _ _ hi]
      exact ⟨le_refl _, fun c hc => hc⟩

/-- Over the whole document-order fold, a group's signature length never
increases. -/
lemma mineFold_mono (getSem : DomNode → List String) (options : AnalyzerOptions) :
    ∀ (els : List PElem) (groups : List MGroup),
      (∀ el ∈ els, (getSem el.node).Nodup) →
      groups.length ≤ (mineFold getSem options groups els).length ∧
      ∀ i, i < groups.length →
        ((mineFold getSem options groups els).getD i dgroup).classes.length ≤
          ((groups.getD i dgroup).classes).length := by
  intro els
  induction els with
  | nil => intro groups h; exact ⟨le_refl _, fun i hi => le_refl _⟩
  | cons el rest ih =>
    intro groups h
    have hstep := mineStep_mono getSem options groups el (h el (List.mem_cons_self _ _))
    have hih := ih (mineStep getSem options groups el)
      (fun e he => h e (List.mem_cons_of_mem _ he))
    simp only [mineFold, List.foldl_cons] at *
    constructor
    · exact le_trans hstep.1 hih.1
    · intro i hi
      have hi2 : i < (mineStep getSem options groups el).length :=
        lt_of_lt_of_le hi hstep.1
      exact le_trans (hih.2 i hi2) (hstep.2 i hi).1

/-! ## Claim C8 — monotonically shrinking signatures

The join does replace the signature by
`classIntersection(elementClasses, signature)`, whose members all come from
the old signature — but `classIntersection` filters the *element's* class
list by membership in the signature, and the injected `getSemanticClasses`
(`utils/utility-classes.ts` line 127) splits `className` without
deduplication.  An element with a repeated class token therefore produces a
repeated entry, and the intersection can be *longer* than the old
signature: joining a group with signature `[card]` by an element with
`class="card card"` replaces the signature by `[card, card]` — its size
grows.  The size invariant holds exactly when the classifier's output is
duplicate-free. -/

/-- C8 counterexample: with the program's own `getSemanticClasses`, the
element `class="card card"` yields the class list `[card, card]`; joining
it to a group with signature `[card]` (itself produced by mining a plain
`class="card"` element first) replaces the signature by `[card, card]`,
so the signature size increases from 1 to 2 as the element joins. -/
theorem c8_counterexample :
    getSemanticClasses (DomNode.elem "div" [("class", "card card")] []) =
      ["card", "card"] ∧
    ((mineStep getSemanticClasses sampleManualOpts
        [{ classes := ["card"], elems := [] }]
        ⟨2, false, DomNode.elem "div" [("class", "card card")] []⟩).map
      (fun g => g.classes)) = [["card", "card"]] ∧
    ((mineFold getSemanticClasses sampleManualOpts []
        [⟨2, false, DomNode.elem "div" [("class", "card")] []⟩,
         ⟨2, false, DomNode.elem "div" [("class", "card card")] []⟩]).map
      (fun g => g.classes)) = [["card", "card"]] ∧
    ¬ (((mineStep getSemanticClasses sampleManualOpts
          [{ classes := ["card"], elems := [] }]
          ⟨2, false, DomNode.elem "div" [("class", "card card")] []⟩).getD 0
            dgroup).classes.length ≤
        (([{ classes := ["card"], elems := [] }] : List MGroup).getD 0
          dgroup).classes.length) := by
  decide

/-- C8 amended: one clustering step never grows any existing group's
signature *provided* the joining element's semantic class list is
duplicate-free (which the program's `getSemanticClasses` does not enforce —
see the counterexample); unconditionally, a join replaces the signature by
the intersection with the joining element's semantic class set and
set-wise never introduces a class outside the old signature; under the
duplicate-free proviso signature lengths are non-increasing across the
whole document-order fold; and every emitted pattern carries a non-empty
signature in its selector. -/
theorem c8_signature_monotone :
    (∀ (getSem : DomNode → List String) (options : AnalyzerOptions)
        (groups : List MGroup) (el : PElem), (getSem el.node).Nodup →
      groups.length ≤ (mineStep getSem options groups el).length ∧
      ∀ i, i < groups.length →
        ((mineStep getSem options groups el).getD i dgroup).classes.length ≤
          ((groups.getD i dgroup).classes).length ∧
        (∀ c ∈ ((mineStep getSem options groups el).getD i dgroup).classes,
          c ∈ (groups.getD i dgroup).classes)) ∧
    (∀ (getSem : DomNode → List String) (options : AnalyzerOptions)
        (groups : List MGroup) (el : PElem) (i : Nat) (inter : List String),
      bestGroupSearch (getSem el.node) groups = (some i, inter) →
      passesSizeFilters options el = true →
      (getSem el.node).length ≠ 0 →
      mineStep getSem options groups el = updateGroup groups i inter el ∧
      i < groups.length ∧
      inter = classIntersection (getSem el.node) (groups.getD i dgroup).classes) ∧
    (∀ (getSem : DomNode → List String) (options : AnalyzerOptions)
        (els : List PElem) (groups : List MGroup) (i : Nat),
      (∀ el ∈ els, (getSem el.node).Nodup) → i < groups.length →
      ((mineFold getSem options groups els).getD i dgroup).classes.length ≤
        ((groups.getD i dgroup).classes).length) ∧
    (∀ (getSem : DomNode → List String) (doc : DomNode)
        (options : AnalyzerOptions) (p : DOMPattern),
      p ∈ findRepeatedPatterns getSem doc options →
      ∃ tag cls, cls ≠ [] ∧
        p.selector = tag ++ "." ++ intercalateChar '.' cls) := by
  refine ⟨mineStep_mono, ?_, ?_, ?_⟩
  · intro getSem options groups el i inter hbs hfil hsem
    obtain ⟨hlt, hint, -⟩ := bestGroupSearch_spec hbs
    refine ⟨?_, hlt, hint⟩
    unfold mineStep
    rw [if_neg (by simp [hfil]), if_neg hsem, hbs]
  · intro getSem options els groups i h hi
    exact (mineFold_mono getSem options els groups h).2 i hi
  · intro getSem doc options p hp
    obtain ⟨tag, g, hg⟩ := mem_findRepeatedPatterns hp
    obtain ⟨hsel, -, hcls, -, -⟩ := emitGroup_eq_some hg
    refine ⟨tag, g.classes, ?_, hsel⟩
    intro hc
    rw [hc] at hcls
    simp at hcls

/-- C8 witness: a concrete join with the program's own classifier — the
element with class `card` joins the group with signature `[card, wide]`,
and the signature shrinks to the intersection `[card]`. -/
theorem c8_witness :
    (getSemanticClasses (DomNode.elem "div" [("class", "card")] []) ).Nodup ∧
    bestGroupSearch (getSemanticClasses (DomNode.elem "div" [("class", "card")] []))
        [{ classes := ["card", "wide"], elems := [] }] = (some 0, ["card"]) ∧
    passesSizeFilters sampleManualOpts ⟨3, false, DomNode.elem "div" [("class", "card")] []⟩ = true ∧
    mineStep getSemanticClasses sampleManualOpts
        [{ classes := ["card", "wide"], elems := [] }]
        ⟨3, false, DomNode.elem "div" [("class", "card")] []⟩ =
      updateGroup [{ classes := ["card", "wide"], elems := [] }] 0 ["card"]
        ⟨3, false, DomNode.elem "div" [("class", "card")] []⟩ := by
  refine ⟨by decide, by decide, rfl, ?_⟩
  exact (c8_signature_monotone.2.1 getSemanticClasses sampleManualOpts
    [{ classes := ["card", "wide"], elems := [] }]
    ⟨3, false, DomNode.elem "div" [("class", "card")] []⟩ 0 ["card"]
    (by decide) rfl (by decide)).1

/-! ## Claim C9 — field naming and fallbacks

The sanitization pipeline is as claimed, but the fallback to `link` /
`image` / the tag name triggers on an empty *source* text (`text ? ... :`),
not on an empty *sanitized* result: text such as `"!!!"` is non-empty, is
sanitized to the empty string, and the field keeps the empty name. -/

/-- C9 counterexample: a leaf element with text `"!!!"` produces a field
event whose name is the empty string — the sanitization result is empty,
yet neither the tag-name fallback (`span`) nor any literal fallback is
applied, contradicting the claim that an empty sanitization result always
falls back. -/
theorem c9_counterexample :
    sanitizeName "!!!" = "" ∧
    leafFieldName "span" "!!!" = "" ∧
    linkFieldName "!!!" = "" ∧
    elementEvents sampleGss false "div.card" "span"
        (DomNode.elem "span" [] [DomNode.text "!!!"]) =
      [{ key := "text_span", name := "", type := .text,
         selector := "div.card span", sample := "!!!" }] ∧
    ("" : String) ≠ "span" := by
  refine ⟨by decide, ?_, ?_, by decide, by decide⟩
  · unfold leafFieldName
    rw [if_neg (by decide)]
    decide
  · unfold linkFieldName
    rw [if_neg (by decide)]
    decide

/-- C9 amended: the auto-generated name is the sanitization pipeline
(lowercase, truncate to the fixed maximum length, collapse non-alphanumeric
runs to single underscores, trim underscores) applied to the source text;
the fallbacks — tag name for leaf-text fields, `link` for anchors, `image`
for images — apply exactly when the *source* text (or `alt` value) is
empty, not when the sanitized result is empty. -/
theorem c9_naming :
    (∀ s : String, sanitizeName s =
      String.mk (trimUnderscores (collapseNonAlnum
        ((s.data.map Char.toLower).take MAX_FIELD_NAME_LENGTH)))) ∧
    (∀ t : String, t ≠ "" → linkFieldName t = sanitizeName t) ∧
    linkFieldName "" = "link" ∧
    (∀ tag t : String, t ≠ "" → leafFieldName tag t = sanitizeName t) ∧
    (∀ tag : String, leafFieldName tag "" = tag) ∧
    imgFieldName "" = sanitizeName "image" ∧
    sanitizeName "image" = "image" ∧
    (∀ alt : String, alt ≠ "" → imgFieldName alt = sanitizeName alt) := by
  refine ⟨fun s => rfl, ?_, rfl, ?_, fun tag => rfl, rfl, by decide, ?_⟩
  · intro t ht
    unfold linkFieldName
    rw [if_neg ht]
  · intro tag t ht
    unfold leafFieldName
    rw [if_neg ht]
  · intro alt halt
    unfold imgFieldName
    rw [if_neg halt]

/-- C9 witness: the amended naming facts at concrete inputs, including the
truncation at `MAX_FIELD_NAME_LENGTH = 30` (forty characters of input keep
exactly thirty). -/
theorem c9_witness :
    ("Hello, World!" : String) ≠ "" ∧
    linkFieldName "Hello, World!" = sanitizeName "Hello, World!" ∧
    sanitizeName "Hello, World!" = "hello_world" ∧
    sanitizeName "AAAAAAAAAAAAAAAAAAAAAAAAAAAAAAAAAAAAAAAA" =
      "aaaaaaaaaaaaaaaaaaaaaaaaaaaaaa" ∧
    leafFieldName "span" "" = "span" := by
  refine ⟨by decide, c9_naming.2.1 "Hello, World!" (by decide), by decide,
    by decide, c9_naming.2.2.2.2.1 "span"⟩

/-! ### Scoring machinery (claims C1 and C5) -/

lemma scoreOne_pattern (options : AnalyzerOptions) (p : DOMPattern) :
    (scoreOne options p).pattern = p := by
  simp only [scoreOne]
  split <;> rfl

lemma scoreOne_gated {options : AnalyzerOptions} {p : DOMPattern}
    (h : calculateDiversity p.samples < 1/5) :
    (scoreOne options p).score = -100 := by
  simp only [scoreOne]
  rw [if_pos h]

lemma scoreOne_ungated {options : AnalyzerOptions} {p : DOMPattern}
    (h : ¬ calculateDiversity p.samples < 1/5) :
    (scoreOne options p).score =
      Real.log p.count * 10
      + max 0 (10 - |(p.depth : ℝ) - (IDEAL_DOM_DEPTH : ℝ)| * 2)
      + (calculateDiversity p.samples : ℝ) * 15
      + min ((((p.samples.map (fun s => (s.childCount : ℚ))).sum /
          (p.samples.length : ℚ) : ℚ) : ℝ) / 3) 1 * 20
      + (if options.preferTable then
           if jsStartsWith "tr." p.selector || jsStartsWith "tr " p.selector then (25:ℝ)
           else if (decide (List.IsInfix "table".data p.selector.data)
               || decide (List.IsInfix "tbody".data p.selector.data)) then 15
           else 0
         else 0)
      + (if jsStartsWith "a." p.selector then (-15:ℝ) else 0) := by
  simp only [scoreOne]
  rw [if_neg h]

/-- Any pattern surviving the diversity gate with at least one item scores
at least `-12` (worst case: one item, worst depth, gate-threshold diversity,
no children, no table bonus, full anchor penalty). -/
lemma scoreOne_ungated_ge {options : AnalyzerOptions} {p : DOMPattern}
    (h : ¬ calculateDiversity p.samples < 1/5) (hc : 1 ≤ p.count) :
    (-12 : ℝ) ≤ (scoreOne options p).score := by
  rw [scoreOne_ungated h]
  have h1 : (0:ℝ) ≤ Real.log p.count * 10 := by
    apply mul_nonneg _ (by norm_num)
    apply Real.log_nonneg
    exact_mod_cast hc
  have h2 : (0:ℝ) ≤ max 0 (10 - |(p.depth : ℝ) - (IDEAL_DOM_DEPTH : ℝ)| * 2) :=
    le_max_left _ _
  have h3 : (3:ℝ) ≤ (calculateDiversity p.samples : ℝ) * 15 := by
    have hq : (1/5 : ℚ) ≤ calculateDiversity p.samples := not_lt.mp h
    have hr := (Rat.cast_le (K := ℝ)).mpr hq
    push_cast at hr
    nlinarith
  have h4 : (0:ℝ) ≤ min ((((p.samples.map (fun s => (s.childCount : ℚ))).sum /
      (p.samples.length : ℚ) : ℚ) : ℝ) / 3) 1 * 20 := by
    apply mul_nonneg _ (by norm_num)
    apply le_min _ zero_le_one
    apply div_nonneg _ (by norm_num)
    have hq : (0:ℚ) ≤ (p.samples.map (fun s => (s.childCount : ℚ))).sum /
        (p.samples.length : ℚ) := by
      apply div_nonneg _ (by positivity)
      apply List.sum_nonneg
      intro x hx
      rw [List.mem_map] at hx
      obtain ⟨s, -, rfl⟩ := hx
      positivity
    exact_mod_cast hq
  split_ifs <;> linarith

lemma scoredLe_trans : ∀ a b c : ScoredPattern,
    scoredLe a b = true → scoredLe b c = true → scoredLe a c = true := by
  intro a b c hab hbc
  simp only [scoredLe, decide_eq_true_eq] at *
  exact le_trans hbc hab

lemma scoredLe_total : ∀ a b : ScoredPattern,
    (scoredLe a b || scoredLe b a) = true := by
  intro a b
  simp only [scoredLe, Bool.or_eq_true, decide_eq_true_eq]
  exact le_total b.score a.score

lemma scorePatterns_eq (patterns : List DOMPattern) (options : AnalyzerOptions)
    (hne : patterns.filter (fun p => p.depth ≤ options.maxDepth) ≠ []) :
    scorePatterns patterns options =
      ((patterns.filter (fun p => p.depth ≤ options.maxDepth)).map
        (scoreOne options)).mergeSort scoredLe := by
  have hpne : patterns ≠ [] := by
    intro hc
    rw [hc] at hne
    exact hne rfl
  unfold scorePatterns
  rw [if_neg (by simpa [List.length_eq_zero] using hpne),
    if_neg (by simpa [List.length_eq_zero] using hne)]

lemma mem_scorePatterns {patterns : List DOMPattern} {options : AnalyzerOptions}
    {sp : ScoredPattern} (h : sp ∈ scorePatterns patterns options) :
    ∃ p ∈ patterns.filter (fun q => q.depth ≤ options.maxDepth),
      sp = scoreOne options p := by
  unfold scorePatterns at h
  by_cases h0 : patterns.length = 0
  · rw [if_pos h0] at h
    cases h
  · rw [if_neg h0] at h
    by_cases h1 : (patterns.filter (fun p => p.depth ≤ options.maxDepth)).length = 0
    · rw [if_pos h1] at h
      cases h
    · rw [if_neg h1] at h
      rw [List.mem_mergeSort, List.mem_map] at h
      obtain ⟨p, hp, he⟩ := h
      exact ⟨p, hp, he.symm⟩

lemma scorePatterns_sorted (patterns : List DOMPattern) (options : AnalyzerOptions) :
    (scorePatterns patterns options).Pairwise (fun a b => b.score ≤ a.score) := by
  unfold scorePatterns
  by_cases h0 : patterns.length = 0
  · rw [if_pos h0]
    exact List.Pairwise.nil
  · rw [if_neg h0]
    by_cases h1 : (patterns.filter (fun p => p.depth ≤ options.maxDepth)).length = 0
    · rw [if_pos h1]
      exact List.Pairwise.nil
    · rw [if_neg h1]
      have hs := List.sorted_mergeSort scoredLe_trans scoredLe_total
        ((patterns.filter (fun p => p.depth ≤ options.maxDepth)).map
          (scoreOne options))
      exact hs.imp (fun hab => by
        simpa [scoredLe, decide_eq_true_eq] using hab)

/-- The diversity value for at least two samples with some nonempty text. -/
lemma calculateDiversity_formula (samples : List PatternSample)
    (h2 : 2 ≤ samples.length)
    (hne : ((samples.map (fun s => normalizeText (s.text.getD ""))).filter
      (fun t => t.length > 0)).length ≠ 0) :
    calculateDiversity samples =
      ((((samples.map (fun s => normalizeText (s.text.getD ""))).filter
          (fun t => t.length > 0)).dedup.length : ℚ) /
       (((samples.map (fun s => normalizeText (s.text.getD ""))).filter
          (fun t => t.length > 0)).length : ℚ)) := by
  have h0 : ¬ samples.length = 0 := by omega
  have h1 : ¬ samples.length = 1 := by omega
  simp only [calculateDiversity, h0, if_false, h1, hne, if_true]

/-- Sufficient counting condition for passing the diversity gate. -/
lemma calculateDiversity_ge_of (samples : List PatternSample)
    (h2 : 2 ≤ samples.length)
    (hne : ((samples.map (fun s => normalizeText (s.text.getD ""))).filter
      (fun t => t.length > 0)).length ≠ 0)
    (hbound : ((samples.map (fun s => normalizeText (s.text.getD ""))).filter
        (fun t => t.length > 0)).length ≤
      5 * ((samples.map (fun s => normalizeText (s.text.getD ""))).filter
        (fun t => t.length > 0)).dedup.length) :
    ¬ calculateDiversity samples < 1/5 := by
  rw [calculateDiversity_formula samples h2 hne, not_lt]
  rw [div_le_div_iff (by norm_num) (by exact_mod_cast Nat.pos_of_ne_zero hne)]
  have hb : (((samples.map (fun s => normalizeText (s.text.getD ""))).filter
      (fun t => t.length > 0)).length : ℚ) ≤
      5 * (((samples.map (fun s => normalizeText (s.text.getD ""))).filter
        (fun t => t.length > 0)).dedup.length : ℚ) := by
    exact_mod_cast hbound
  linarith

/-- Sufficient counting condition for failing the diversity gate. -/
lemma calculateDiversity_lt_of (samples : List PatternSample)
    (h2 : 2 ≤ samples.length)
    (hne : ((samples.map (fun s => normalizeText (s.text.getD ""))).filter
      (fun t => t.length > 0)).length ≠ 0)
    (hbound : 5 * ((samples.map (fun s => normalizeText (s.text.getD ""))).filter
        (fun t => t.length > 0)).dedup.length <
      ((samples.map (fun s => normalizeText (s.text.getD ""))).filter
        (fun t => t.length > 0)).length) :
    calculateDiversity samples < 1/5 := by
  rw [calculateDiversity_formula samples h2 hne]
  rw [div_lt_div_iff (by exact_mod_cast Nat.pos_of_ne_zero hne) (by norm_num)]
  have hb : 5 * (((samples.map (fun s => normalizeText (s.text.getD ""))).filter
      (fun t => t.length > 0)).dedup.length : ℚ) <
      (((samples.map (fun s => normalizeText (s.text.getD ""))).filter
        (fun t => t.length > 0)).length : ℚ) := by
    exact_mod_cast hbound
  linarith

/-- A concrete nav-like pattern: 50 links, all with the same text, so its
diversity `1/10` is below the gate. -/
def gatedPattern : DOMPattern :=
  { selector := "a.nav-link", count := 50, depth := 2,
    samples := List.replicate 10 ⟨"", some "Home", 0, 4⟩ }

/-- A concrete content-like pattern with two distinct sample texts
(diversity `1`). -/
def goodPattern : DOMPattern :=
  { selector := "div.card", count := 5, depth := 4,
    samples := [⟨"", some "Alpha", 3, 5⟩, ⟨"", some "Beta", 3, 4⟩] }

/-- Concrete scoring options. -/
def scoreOpts : AnalyzerOptions :=
  { minItems := 3, maxDepth := 10, fieldTypes := [], includeEmpty := false,
    confidenceThreshold := 7/10 }

/-! ## Claim C1 — the diversity gate

The `-100` forcing holds unconditionally, but a gated pattern can still win
selection when every surviving pattern is gated (the sort keeps them and
`selectBestPattern` returns `scored[0]` regardless of its score): a list
containing only one low-diversity pattern returns that pattern.  A gated
pattern never wins as soon as some pattern with diversity `≥ 0.2` survives
the depth filter. -/

/-- C1 counterexample: with a single mined candidate of diversity
`1/10 < 0.2`, `selectBestPattern` still returns it — a pattern with
diversity below the gate wins selection. -/
theorem c1_counterexample :
    calculateDiversity gatedPattern.samples < 1/5 ∧
    selectBestPattern [gatedPattern] scoreOpts = some gatedPattern := by
  constructor
  · exact calculateDiversity_lt_of _ (by decide) (by decide) (by decide)
  · have hfilter : [gatedPattern].filter (fun p => p.depth ≤ scoreOpts.maxDepth) =
        [gatedPattern] := by decide
    have heq : scorePatterns [gatedPattern] scoreOpts =
        [scoreOne scoreOpts gatedPattern] := by
      rw [scorePatterns_eq _ _ (by rw [hfilter]; exact List.cons_ne_nil _ _), hfilter]
      rw [List.map_cons, List.map_nil, List.mergeSort_singleton]
    unfold selectBestPattern
    rw [heq]
    show some (scoreOne scoreOpts gatedPattern).pattern = some gatedPattern
    rw [scoreOne_pattern]

/-- C1 amended: `scorePatterns` forces the total score of any pattern with
diversity `< 0.2` to `-100`; and whenever the mined candidates all have at
least one item and at least one candidate passes the `maxDepth` filter with
diversity `≥ 0.2`, the selected pattern's diversity is `≥ 0.2` — a gated
pattern never wins against any surviving non-gated pattern. -/
theorem c1_diversity_gate (patterns : List DOMPattern) (options : AnalyzerOptions)
    (hcount : ∀ p ∈ patterns, 1 ≤ p.count)
    (hex : ∃ p ∈ patterns, p.depth ≤ options.maxDepth ∧
      ¬ calculateDiversity p.samples < 1/5) :
    (∀ sp ∈ scorePatterns patterns options,
      calculateDiversity sp.pattern.samples < 1/5 → sp.score = -100) ∧
    (∃ q, selectBestPattern patterns options = some q ∧
      ¬ calculateDiversity q.samples < 1/5) := by
  constructor
  · intro sp hsp hdiv
    obtain ⟨p, hpf, rfl⟩ := mem_scorePatterns hsp
    rw [scoreOne_pattern] at hdiv
    exact scoreOne_gated hdiv
  · obtain ⟨pw, hpw, hdw, hdivw⟩ := hex
    have hpwf : pw ∈ patterns.filter (fun p => p.depth ≤ options.maxDepth) :=
      List.mem_filter.mpr ⟨hpw, by simpa using hdw⟩
    have hfne : patterns.filter (fun p => p.depth ≤ options.maxDepth) ≠ [] :=
      List.ne_nil_of_mem hpwf
    have heq := scorePatterns_eq patterns options hfne
    cases hsp : scorePatterns patterns options with
    | nil =>
      exfalso
      rw [heq] at hsp
      have hperm := List.mergeSort_perm
        ((patterns.filter (fun p => p.depth ≤ options.maxDepth)).map
          (scoreOne options)) scoredLe
      rw [hsp] at hperm
      have := hperm.symm.eq_nil
      rw [List.map_eq_nil] at this
      exact hfne this
    | cons sp0 tail =>
      refine ⟨sp0.pattern, by unfold selectBestPattern; rw [hsp], ?_⟩
      intro hdiv0
      have hsorted := scorePatterns_sorted patterns options
      rw [hsp] at hsorted
      have hhead : ∀ b ∈ tail, b.score ≤ sp0.score :=
        (List.pairwise_cons.mp hsorted).1
      have hwmem : scoreOne options pw ∈ sp0 :: tail := by
        rw [← hsp, heq, List.mem_mergeSort]
        exact List.mem_map_of_mem _ hpwf
      have hsp0mem : sp0 ∈ scorePatterns patterns options := by
        rw [hsp]
        exact List.mem_cons_self _ _
      obtain ⟨p0, hp0f, hsp0⟩ := mem_scorePatterns hsp0mem
      rw [hsp0, scoreOne_pattern] at hdiv0
      have hgate : sp0.score = -100 := by
        rw [hsp0]
        exact scoreOne_gated hdiv0
      have hwscore : (-12:ℝ) ≤ (scoreOne options pw).score :=
        scoreOne_ungated_ge hdivw (hcount pw hpw)
      have hle : (scoreOne options pw).score ≤ sp0.score := by
        rcases List.mem_cons.mp hwmem with heq2 | hmem2
        · rw [heq2]
        · exact hhead _ hmem2
      rw [hgate] at hle
      linarith

/-- C1 witness: against a concrete pair (one 50-item identical-text nav
pattern, one diverse card pattern) the selected pattern has diversity above
the gate. -/
theorem c1_witness :
    (∀ p ∈ [gatedPattern, goodPattern], 1 ≤ p.count) ∧
    (goodPattern ∈ [gatedPattern, goodPattern] ∧
      goodPattern.depth ≤ scoreOpts.maxDepth ∧
      ¬ calculateDiversity goodPattern.samples < 1/5) ∧
    (∃ q, selectBestPattern [gatedPattern, goodPattern] scoreOpts = some q ∧
      ¬ calculateDiversity q.samples < 1/5) := by
  have hgood : ¬ calculateDiversity goodPattern.samples < 1/5 :=
    calculateDiversity_ge_of _ (by decide) (by decide) (by decide)
  refine ⟨by decide, ⟨by decide, by decide, hgood⟩, ?_⟩
  exact (c1_diversity_gate [gatedPattern, goodPattern] scoreOpts (by decide)
    ⟨goodPattern, by decide, by decide, hgood⟩).2

/-! ## Claim C5 — the score formula and the sort -/

/-- C5: for every pattern surviving the `maxDepth` filter with diversity
`≥ 0.2`, its score is exactly the claimed sum (count, depth around the ideal
depth 4, diversity bonus, child richness, table bonus only under
table-preference, anchor penalty); the scored list is pairwise sorted
descending by score; and the sort is stable — any two entries in scoring
order whose scores already satisfy the descending relation (ties included)
keep their relative order.  The 25-point table bonus condition is stated for
selectors that are not of the descendant form `tr ...`, which mined
selectors (`tag.class...`) never take. -/
theorem c5_score_sort (patterns : List DOMPattern) (options : AnalyzerOptions) :
    (∀ sp ∈ scorePatterns patterns options,
      ¬ calculateDiversity sp.pattern.samples < 1/5 →
      jsStartsWith "tr " sp.pattern.selector = false →
      sp.score = Real.log sp.pattern.count * 10
        + max 0 (10 - |(sp.pattern.depth : ℝ) - 4| * 2)
        + (calculateDiversity sp.pattern.samples : ℝ) * 15
        + min ((((sp.pattern.samples.map (fun s => (s.childCount : ℚ))).sum /
            (sp.pattern.samples.length : ℚ) : ℚ) : ℝ) / 3) 1 * 20
        + (if options.preferTable then
             (if jsStartsWith "tr." sp.pattern.selector then (25:ℝ)
              else if (decide (List.IsInfix "table".data sp.pattern.selector.data)
                  || decide (List.IsInfix "tbody".data sp.pattern.selector.data)) then 15
              else 0)
           else 0)
        + (if jsStartsWith "a." sp.pattern.selector then (-15:ℝ) else 0)) ∧
    (scorePatterns patterns options).Pairwise (fun a b => b.score ≤ a.score) ∧
    (∀ a b : ScoredPattern,
      [a, b].Sublist ((patterns.filter (fun p => p.depth ≤ options.maxDepth)).map
        (scoreOne options)) →
      b.score ≤ a.score →
      [a, b].Sublist (scorePatterns patterns options)) := by
  refine ⟨?_, scorePatterns_sorted patterns options, ?_⟩
  · intro sp hsp hdiv htr
    obtain ⟨p, hpf, rfl⟩ := mem_scorePatterns hsp
    rw [scoreOne_pattern] at hdiv htr ⊢
    rw [scoreOne_ungated hdiv, htr]
    simp only [Bool.or_false, IDEAL_DOM_DEPTH, Nat.cast_ofNat]
  · intro a b hsub hba
    have hmapne : (patterns.filter (fun p => p.depth ≤ options.maxDepth)).map
        (scoreOne options) ≠ [] := by
      intro hc
      rw [hc] at hsub
      have := hsub.length_le
      simp at this
    have hfne : patterns.filter (fun p => p.depth ≤ options.maxDepth) ≠ [] := by
      intro hc
      rw [hc] at hmapne
      exact hmapne rfl
    rw [scorePatterns_eq patterns options hfne]
    apply List.sublist_mergeSort scoredLe_trans scoredLe_total _ hsub
    rw [List.pairwise_cons]
    refine ⟨?_, List.pairwise_singleton _ _⟩
    intro x hx
    rw [List.mem_singleton] at hx
    subst hx
    simp only [scoredLe, decide_eq_true_eq]
    exact hba

/-- C5 witness: the score-formula part applied to a concrete singleton
pattern list. -/
theorem c5_witness :
    scoreOne scoreOpts goodPattern ∈ scorePatterns [goodPattern] scoreOpts ∧
    ¬ calculateDiversity (scoreOne scoreOpts goodPattern).pattern.samples < 1/5 ∧
    jsStartsWith "tr " (scoreOne scoreOpts goodPattern).pattern.selector = false ∧
    (scoreOne scoreOpts goodPattern).score =
      Real.log (scoreOne scoreOpts goodPattern).pattern.count * 10
        + max 0 (10 - |((scoreOne scoreOpts goodPattern).pattern.depth : ℝ) - 4| * 2)
        + (calculateDiversity (scoreOne scoreOpts goodPattern).pattern.samples : ℝ) * 15
        + min (((((scoreOne scoreOpts goodPattern).pattern.samples.map
            (fun s => (s.childCount : ℚ))).sum /
            ((scoreOne scoreOpts goodPattern).pattern.samples.length : ℚ) : ℚ) : ℝ) / 3) 1 * 20
        + (if scoreOpts.preferTable then
             (if jsStartsWith "tr." (scoreOne scoreOpts goodPattern).pattern.selector then (25:ℝ)
              else if (decide (List.IsInfix "table".data
                    (scoreOne scoreOpts goodPattern).pattern.selector.data)
                  || decide (List.IsInfix "tbody".data
                    (scoreOne scoreOpts goodPattern).pattern.selector.data)) then 15
              else 0)
           else 0)
        + (if jsStartsWith "a." (scoreOne scoreOpts goodPattern).pattern.selector
            then (-15:ℝ) else 0) := by
  have hgood : ¬ calculateDiversity goodPattern.samples < 1/5 :=
    calculateDiversity_ge_of _ (by decide) (by decide) (by decide)
  have hfilter : [goodPattern].filter (fun p => p.depth ≤ scoreOpts.maxDepth) =
      [goodPattern] := by decide
  have heq : scorePatterns [goodPattern] scoreOpts =
      [scoreOne scoreOpts goodPattern] := by
    rw [scorePatterns_eq _ _ (by rw [hfilter]; exact List.cons_ne_nil _ _), hfilter]
    rw [List.map_cons, List.map_nil, List.mergeSort_singleton]
  have hmem : scoreOne scoreOpts goodPattern ∈ scorePatterns [goodPattern] scoreOpts := by
    rw [heq]
    exact List.mem_cons_self _ _
  have hdiv : ¬ calculateDiversity (scoreOne scoreOpts goodPattern).pattern.samples < 1/5 := by
    rw [scoreOne_pattern]
    exact hgood
  have htr : jsStartsWith "tr " (scoreOne scoreOpts goodPattern).pattern.selector = false := by
    rw [scoreOne_pattern]
    decide
  exact ⟨hmem, hdiv, htr,
    (c5_score_sort [goodPattern] scoreOpts).1 _ hmem hdiv htr⟩

/-! ## Claim C6 — diversity formula and its edge cases

The general formula holds, but the spec's edge cases are wrong: the code
returns `0` for an empty sample list and `1` for a singleton sample list
(both before the text check), so "no sample has text" yields the neutral
`0.5` only for lists of at least two samples. -/

/-- C6 counterexample: the claim says that whenever no sample has text the
diversity equals `0.5`, "including the cases of an empty sample list and a
single sample with no text"; the code returns `0` on the empty list and `1`
on a single textless sample. -/
theorem c6_counterexample :
    calculateDiversity [] ≠ 1/2 ∧
    calculateDiversity [⟨"", some "", 0, 0⟩] ≠ 1/2 ∧
    calculateDiversity [] = 0 ∧
    calculateDiversity [⟨"", some "", 0, 0⟩] = 1 := by
  have h0 : calculateDiversity [] = 0 := rfl
  have h1 : calculateDiversity [⟨"", some "", 0, 0⟩] = 1 := rfl
  refine ⟨by rw [h0]; norm_num, by rw [h1]; norm_num, h0, h1⟩

/-- C6 amended: for sample lists with at least two entries, the diversity is
`unique-count / total-count` over the normalized nonempty sample texts and
is the neutral `0.5` when no sample has text; the empty list yields `0`, a
singleton list yields `1` (both returned before the text check); and every
mined candidate pattern carries at most 10 samples. -/
theorem c6_diversity :
    (∀ samples : List PatternSample, 2 ≤ samples.length →
      ((((samples.map (fun s => normalizeText (s.text.getD ""))).filter
          (fun t => t.length > 0)).length = 0 →
        calculateDiversity samples = 1/2) ∧
       (((samples.map (fun s => normalizeText (s.text.getD ""))).filter
          (fun t => t.length > 0)).length ≠ 0 →
        calculateDiversity samples =
          ((((samples.map (fun s => normalizeText (s.text.getD ""))).filter
              (fun t => t.length > 0)).dedup.length : ℚ) /
           (((samples.map (fun s => normalizeText (s.text.getD ""))).filter
              (fun t => t.length > 0)).length : ℚ))))) ∧
    calculateDiversity [] = 0 ∧
    (∀ s, calculateDiversity [s] = 1) ∧
    (∀ getSem doc options p, p ∈ findRepeatedPatterns getSem doc options →
      p.samples.length ≤ 10) := by
  refine ⟨?_, rfl, ?_, ?_⟩
  · intro samples hlen
    have h0 : ¬ samples.length = 0 := by omega
    have h1 : ¬ samples.length = 1 := by omega
    constructor
    · intro htxt
      simp only [calculateDiversity, h0, if_false, h1, htxt, if_true]
    · intro htxt
      simp only [calculateDiversity, h0, if_false, h1, htxt, if_true]
  · intro s
    rfl
  · intro getSem doc options p hp
    obtain ⟨tag, g, hg⟩ := mem_findRepeatedPatterns hp
    obtain ⟨-, -, -, -, hs⟩ := emitGroup_eq_some hg
    rw [hs, List.length_map]
    exact le_trans (List.length_take_le 10 g.elems) (le_refl 10)

/-- C6 witness: the amended theorem applied to a concrete two-sample list
with one repeated text. -/
theorem c6_witness :
    2 ≤ ([⟨"", some "A", 0, 0⟩, ⟨"", some "a ", 0, 0⟩] : List PatternSample).length ∧
    calculateDiversity [⟨"", some "A", 0, 0⟩, ⟨"", some "a ", 0, 0⟩] = 1/2 := by
  constructor
  · decide
  · have h := (c6_diversity.1 [⟨"", some "A", 0, 0⟩, ⟨"", some "a ", 0, 0⟩]
      (by decide)).2 (by decide)
    rw [h]
    rw [show (((([⟨"", some "A", 0, 0⟩, ⟨"", some "a ", 0, 0⟩] :
        List PatternSample).map (fun s => normalizeText (s.text.getD ""))).filter
        (fun t => t.length > 0)).dedup.length) = 1 from by decide]
    rw [show (((([⟨"", some "A", 0, 0⟩, ⟨"", some "a ", 0, 0⟩] :
        List PatternSample).map (fun s => normalizeText (s.text.getD ""))).filter
        (fun t => t.length > 0)).length) = 2 from by decide]
    norm_num

end SchemaSniff
